import Mathlib

/-!
# Maker-checker message service

A shallow embedding of `main.go` and `storage.go`.

The Go program keeps `map[string]*Message`: the map holds *pointers*, and the
approve and reject handlers write through the pointer they fetched before they
call `UpdateMessage`.  The embedding therefore keeps an explicit heap of
`Message` objects and a map from keys to addresses.

What comes from outside the program is a parameter of the handler that uses
it: the result of decoding the JSON body, the string `generateID()` returns,
the reading of `time.Now()`, the `id` path variable, and the order in which the
Go runtime visits the entries of a map in a `range` loop.

The mutex of `Storage` is not modelled: each operation runs to completion.
-/

namespace MakerChecker

/-! ## Data model (`main.go`, lines 14-38) -/

/-- `type MessageStatus string`. -/
abbrev MessageStatus := String

/-- `Pending MessageStatus = "Pending"`. -/
def Pending : MessageStatus := "Pending"

/-- `Approved MessageStatus = "Approved"`. -/
def Approved : MessageStatus := "Approved"

/-- `Rejected MessageStatus = "Rejected"`. -/
def Rejected : MessageStatus := "Rejected"

/-- A reading of the clock (`time.Time`). -/
abbrev Time := Nat

/-- `type Message struct`.  The two `*time.Time` fields are `Option Time`:
`nil` is `none`, and nothing writes through the pointer `ptr` returns. -/
structure Message where
  ID : String
  Content : String
  Recipient : String
  Status : MessageStatus
  CreatedAt : Time
  ApprovedAt : Option Time
  RejectedAt : Option Time
deriving DecidableEq, Repr

/-- `type CreateMessageRequest struct`. -/
structure CreateMessageRequest where
  Content : String
  Recipient : String
deriving DecidableEq, Repr

/-- An address of a `Message` object: a value of type `*Message`. -/
abbrev Ptr := Nat

/-! ## Go maps -/

/-- The value of `m[k]` with its `ok` flag: `none` is `(nil, false)`. -/
def mapLookup (k : String) : List (String × Ptr) → Option Ptr
  | [] => none
  | (k', p) :: rest => if k' = k then some p else mapLookup k rest

/-- The statement `m[k] = p`: the entry of `k` is replaced, or a new entry is
made when `k` has none. -/
def mapAssign (k : String) (p : Ptr) : List (String × Ptr) → List (String × Ptr)
  | [] => [(k, p)]
  | (k', p') :: rest =>
    if k' = k then (k, p) :: rest else (k', p') :: mapAssign k p rest

/-- The order in which `for ... range m` visits the entries of a map.  Go leaves
the order to the runtime; `order` is the runtime's choice, an index into the
orderings of the entries (an index past the last one chooses the first). -/
def rangeOrder {α : Type} (order : Nat) (entries : List α) : List α :=
  List.getD (List.permutations' entries) order entries

/-! ## State -/

/-- `type Storage struct` (`storage.go`, lines 6-9), without the mutex. -/
structure Storage where
  messages : List (String × Ptr)
deriving DecidableEq, Repr

/-- The state of the process: the `Message` objects allocated so far (the
address of an object is its position) and the package variable `storage`. -/
structure World where
  heap : List Message
  storage : Storage
deriving DecidableEq, Repr

/-- The object at address `p`; `none` when `p` is no address of an object. -/
def World.read (w : World) (p : Ptr) : Option Message := w.heap[p]?

/-- A write through the pointer `p`: `*p = f(*p)`. -/
def World.modify (w : World) (p : Ptr) (f : Message → Message) : Option World :=
  match w.heap[p]? with
  | none => none
  | some m => some { w with heap := w.heap.set p (f m) }

/-- The expression `&Message{...}`: a new object, and its address. -/
def World.alloc (w : World) (m : Message) : Ptr × World :=
  (w.heap.length, { w with heap := w.heap ++ [m] })

/-! ## `storage.go` -/

/-- `NewStorage`, in a process that has allocated no `Message` yet. -/
def NewStorage : World := { heap := [], storage := { messages := [] } }

/-- `Storage.AddMessage`: `s.messages[msg.ID] = msg`. -/
def AddMessage (w : World) (msg : Ptr) : Option World :=
  match w.read msg with
  | none => none
  | some m => some { w with storage := { messages := mapAssign m.ID msg w.storage.messages } }

/-- `Storage.GetMessage`: `some p` is `(p, true)`, `none` is `(nil, false)`. -/
def GetMessage (w : World) (id : String) : Option Ptr :=
  mapLookup id w.storage.messages

/-- `Storage.GetAllMessages`: the pointers in the map, in the order of the
`range` loop. -/
def GetAllMessages (w : World) (order : Nat) : List Ptr :=
  (rangeOrder order w.storage.messages).map Prod.snd

/-- `Storage.UpdateMessage`: `s.messages[msg.ID] = msg`. -/
def UpdateMessage (w : World) (msg : Ptr) : Option World :=
  match w.read msg with
  | none => none
  | some m => some { w with storage := { messages := mapAssign m.ID msg w.storage.messages } }

/-! ## `main.go` -/

/-- What a handler writes to its `http.ResponseWriter`. -/
inductive Body where
  | error (text : String)
  | message (m : Message)
  | messages (ms : List Message)
deriving DecidableEq, Repr

/-- The status code and the body of a response. -/
structure Response where
  code : Nat
  body : Body
deriving DecidableEq, Repr

/-- `http.StatusOK`. -/
def StatusOK : Nat := 200

/-- `http.StatusBadRequest`. -/
def StatusBadRequest : Nat := 400

/-- `http.StatusNotFound`. -/
def StatusNotFound : Nat := 404

/-- `http.StatusConflict`. -/
def StatusConflict : Nat := 409

/-- `json.NewEncoder(w).Encode(messages)` on a slice of pointers: every
pointer is followed. -/
def encodeAll (w : World) : List Ptr → Option (List Message)
  | [] => some []
  | p :: ps =>
    match w.read p, encodeAll w ps with
    | some m, some ms => some (m :: ms)
    | _, _ => none

/-- `handleMessages` (lines 59-82).  `decoded` is what
`json.NewDecoder(r.Body).Decode(&req)` makes of the body (`none`: an error),
`newID` what `generateID()` returns and `now` what `time.Now()` returns.
The result is `none` only where the program follows a pointer to no object. -/
def handleMessages (w : World) (decoded : Option CreateMessageRequest)
    (newID : String) (now : Time) : Option (Response × World) :=
  match decoded with
  | none => some ({ code := StatusBadRequest, body := .error "Invalid request body" }, w)
  | some req =>
    if req.Content = "" ∨ req.Recipient = "" then
      some ({ code := StatusBadRequest, body := .error "Content and Recipient are required" }, w)
    else
      let (msg, w1) := w.alloc
        { ID := newID, Content := req.Content, Recipient := req.Recipient,
          Status := Pending, CreatedAt := now, ApprovedAt := none, RejectedAt := none }
      match AddMessage w1 msg with
      | none => none
      | some w2 =>
        match w2.read msg with
        | none => none
        | some out => some ({ code := StatusOK, body := .message out }, w2)

/-- `handleApproveMessage` (lines 85-110).  `id` is `mux.Vars(r)["id"]`. -/
def handleApproveMessage (w : World) (id : String) (now : Time) :
    Option (Response × World) :=
  if id = "" then
    some ({ code := StatusBadRequest, body := .error "Message ID is required" }, w)
  else
    match GetMessage w id with
    | none => some ({ code := StatusNotFound, body := .error "Message not found" }, w)
    | some msg =>
      match w.read msg with
      | none => none
      | some m =>
        if m.Status ≠ Pending then
          some ({ code := StatusConflict, body := .error "Message is not in a pending state" }, w)
        else
          match w.modify msg (fun m => { m with Status := Approved }) with
          | none => none
          | some w1 =>
            match w1.modify msg (fun m => { m with ApprovedAt := some now }) with
            | none => none
            | some w2 =>
              match UpdateMessage w2 msg with
              | none => none
              | some w3 =>
                match w3.read msg with
                | none => none
                | some out => some ({ code := StatusOK, body := .message out }, w3)

/-- `handleRejectMessage` (lines 113-138). -/
def handleRejectMessage (w : World) (id : String) (now : Time) :
    Option (Response × World) :=
  if id = "" then
    some ({ code := StatusBadRequest, body := .error "Message ID is required" }, w)
  else
    match GetMessage w id with
    | none => some ({ code := StatusNotFound, body := .error "Message not found" }, w)
    | some msg =>
      match w.read msg with
      | none => none
      | some m =>
        if m.Status ≠ Pending then
          some ({ code := StatusConflict, body := .error "Message is not in a pending state" }, w)
        else
          match w.modify msg (fun m => { m with Status := Rejected }) with
          | none => none
          | some w1 =>
            match w1.modify msg (fun m => { m with RejectedAt := some now }) with
            | none => none
            | some w2 =>
              match UpdateMessage w2 msg with
              | none => none
              | some w3 =>
                match w3.read msg with
                | none => none
                | some out => some ({ code := StatusOK, body := .message out }, w3)

/-- `handleViewMessages` (lines 141-145).  `order` is the order of the `range`
loop inside `GetAllMessages`. -/
def handleViewMessages (w : World) (order : Nat) : Option (Response × World) :=
  match encodeAll w (GetAllMessages w order) with
  | none => none
  | some ms => some ({ code := StatusOK, body := .messages ms }, w)

/-! ## Sequences of requests -/

/-- One request to the service, with what the outside world supplies to it. -/
inductive Call where
  | create (decoded : Option CreateMessageRequest) (newID : String) (now : Time)
  | approve (id : String) (now : Time)
  | reject (id : String) (now : Time)
  | view (order : Nat)
deriving DecidableEq, Repr

/-- The handler the router runs for a request. -/
def step (w : World) : Call → Option (Response × World)
  | .create decoded newID now => handleMessages w decoded newID now
  | .approve id now => handleApproveMessage w id now
  | .reject id now => handleRejectMessage w id now
  | .view order => handleViewMessages w order

/-- The state after a sequence of requests, one after the other. -/
def run (w : World) : List Call → Option World
  | [] => some w
  | c :: cs =>
    match step w c with
    | none => none
    | some (_, w1) => run w1 cs

/-- The responses to a sequence of requests, and the state after them. -/
def trace (w : World) : List Call → Option (List Response × World)
  | [] => some ([], w)
  | c :: cs =>
    match step w c with
    | none => none
    | some (r, w1) =>
      match trace w1 cs with
      | none => none
      | some (rs, w2) => some (r :: rs, w2)

/-- The record stored under `id`: the object behind the pointer `GetMessage`
returns. -/
def record (w : World) (id : String) : Option Message :=
  match GetMessage w id with
  | none => none
  | some p => w.read p

/-- The message `handleMessages` builds (lines 71-77). -/
def newMessage (req : CreateMessageRequest) (newID : String) (now : Time) : Message :=
  { ID := newID, Content := req.Content, Recipient := req.Recipient,
    Status := Pending, CreatedAt := now, ApprovedAt := none, RejectedAt := none }

/-- The two optional timestamps agree with the status. -/
def Stamped (m : Message) : Prop :=
  (m.ApprovedAt.isSome = true ↔ m.Status = Approved) ∧
  (m.RejectedAt.isSome = true ↔ m.Status = Rejected)

/-- The status is one of the three constants. -/
def KnownStatus (m : Message) : Prop :=
  m.Status = Pending ∨ m.Status = Approved ∨ m.Status = Rejected

/-- The status is one of the two final ones. -/
def Terminal (m : Message) : Prop :=
  m.Status = Approved ∨ m.Status = Rejected

/-- What holds of every message the handlers store. -/
def Sound (m : Message) : Prop :=
  Stamped m ∧ KnownStatus m ∧ m.Content ≠ "" ∧ m.Recipient ≠ ""

/-- Every entry of the map points to an object, the object carries the key of the
entry as its `ID`, and the object is sound. -/
def Consistent (w : World) : Prop :=
  ∀ e ∈ w.storage.messages, ∃ m, w.read e.2 = some m ∧ m.ID = e.1 ∧ Sound m

/-- The id `generateID()` is asked for while the request is handled: only a
creation that passes validation asks for one. -/
def generated : Call → Option String
  | .create (some req) newID _ =>
    if req.Content = "" ∨ req.Recipient = "" then none else some newID
  | _ => none

/-- The status of the record stored under `id`, when there is one. -/
def statusOf (w : World) (id : String) : Option MessageStatus :=
  (record w id).map (fun m => m.Status)

/-- The status of the record under `id` in every state of a run: before the
first request and after each request. -/
def statusesOf (id : String) (w : World) : List Call → List (Option MessageStatus)
  | [] => [statusOf w id]
  | c :: cs =>
    statusOf w id ::
      (match step w c with
       | none => []
       | some (_, w1) => statusesOf id w1 cs)

/-- The number of places in a history where a status is followed by a
different status. -/
def statusChanges : List (Option MessageStatus) → Nat
  | [] => 0
  | [_] => 0
  | a :: b :: rest =>
    (match a, b with
     | some x, some y => if x = y then 0 else 1
     | _, _ => 0) + statusChanges (b :: rest)

/-- Every id generated along the sequence is, when it is generated, the key of
no entry of the map. -/
def freshIds (w : World) : List Call → Bool
  | [] => true
  | c :: cs =>
    (match generated c with
     | none => true
     | some newID => (GetMessage w newID).isNone) &&
    (match step w c with
     | none => true
     | some (_, w1) => freshIds w1 cs)

/-- The keys of the map, one for each entry. -/
def keys (w : World) : List String :=
  w.storage.messages.map Prod.fst

/-- Every pointer in the map is the address of an object.  Go has no pointer to
freed memory, and `AddMessage` and `UpdateMessage` read `msg.ID` before they
store `msg`, so neither can put `nil` in the map. -/
def Allocated (w : World) : Prop :=
  ∀ e ∈ w.storage.messages, (w.read e.2).isSome = true

/-- Every entry of the map points to an object whose `ID` is the key of the
entry. -/
def Keyed (w : World) : Prop :=
  ∀ e ∈ w.storage.messages, (w.read e.2).map (fun m => m.ID) = some e.1

/-! ## Maps and the heap -/

theorem mapLookup_mapAssign_self (k : String) (p : Ptr) (l : List (String × Ptr)) :
    mapLookup k (mapAssign k p l) = some p := by
  induction l with
  | nil => simp [mapAssign, mapLookup]
  | cons e rest ih =>
    obtain ⟨k', p'⟩ := e
    by_cases h : k' = k
    · simp [mapAssign, mapLookup, h]
    · simp [mapAssign, mapLookup, h, ih]

theorem mapLookup_mapAssign_ne (k j : String) (p : Ptr) (l : List (String × Ptr))
    (hne : j ≠ k) : mapLookup j (mapAssign k p l) = mapLookup j l := by
  induction l with
  | nil =>
    have : ¬ k = j := fun h => hne h.symm
    simp [mapAssign, mapLookup, this]
  | cons e rest ih =>
    obtain ⟨k', p'⟩ := e
    by_cases h : k' = k
    · have h1 : ¬ k = j := fun h => hne h.symm
      have h2 : ¬ k' = j := by rw [h]; exact h1
      simp [mapAssign, mapLookup, h, h1]
    · by_cases h3 : k' = j
      · subst h3
        simp [mapAssign, mapLookup, hne]
      · simp [mapAssign, mapLookup, h, h3, ih]

theorem mem_of_mapLookup (k : String) (p : Ptr) (l : List (String × Ptr))
    (h : mapLookup k l = some p) : (k, p) ∈ l := by
  induction l with
  | nil => simp [mapLookup] at h
  | cons e rest ih =>
    obtain ⟨k', p'⟩ := e
    by_cases hk : k' = k
    · simp [mapLookup, hk] at h
      simp [hk, h]
    · simp [mapLookup, hk] at h
      exact List.mem_cons_of_mem _ (ih h)

theorem mem_mapAssign (k : String) (p : Ptr) (l : List (String × Ptr))
    (e : String × Ptr) (h : e ∈ mapAssign k p l) : e = (k, p) ∨ e ∈ l := by
  induction l with
  | nil => simpa [mapAssign] using h
  | cons e' rest ih =>
    obtain ⟨k', p'⟩ := e'
    by_cases hk : k' = k
    · simp [mapAssign, hk] at h
      rcases h with h | h
      · exact Or.inl h
      · exact Or.inr (List.mem_cons_of_mem _ h)
    · simp [mapAssign, hk] at h
      rcases h with h | h
      · exact Or.inr (by simp [h])
      · rcases ih h with h' | h'
        · exact Or.inl h'
        · exact Or.inr (List.mem_cons_of_mem _ h')

theorem read_lt (w : World) (p : Ptr) (m : Message) (h : w.read p = some m) :
    p < w.heap.length := by
  unfold World.read at h
  exact (List.getElem?_eq_some_iff.mp h).1

/-! ## The handlers in closed form -/

theorem handleMessages_ok (w : World) (req : CreateMessageRequest) (newID : String)
    (now : Time) (hc : req.Content ≠ "") (hr : req.Recipient ≠ "") :
    handleMessages w (some req) newID now =
      some ({ code := StatusOK, body := .message (newMessage req newID now) },
            { heap := w.heap ++ [newMessage req newID now],
              storage := { messages := mapAssign newID w.heap.length w.storage.messages } }) := by
  simp [handleMessages, hc, hr, World.alloc, AddMessage, World.read, newMessage]

theorem handleApproveMessage_ok (w : World) (id : String) (now : Time) (p : Ptr)
    (m : Message) (hid : id ≠ "") (hget : GetMessage w id = some p)
    (hread : w.read p = some m) (hs : m.Status = Pending) :
    handleApproveMessage w id now =
      some ({ code := StatusOK,
              body := .message { m with Status := Approved, ApprovedAt := some now } },
            { heap := w.heap.set p { m with Status := Approved, ApprovedAt := some now },
              storage := { messages := mapAssign m.ID p w.storage.messages } }) := by
  have hlt := read_lt w p m hread
  unfold World.read at hread
  simp [handleApproveMessage, hid, hget, World.read, hread, hs, World.modify,
    UpdateMessage, hlt]

theorem handleRejectMessage_ok (w : World) (id : String) (now : Time) (p : Ptr)
    (m : Message) (hid : id ≠ "") (hget : GetMessage w id = some p)
    (hread : w.read p = some m) (hs : m.Status = Pending) :
    handleRejectMessage w id now =
      some ({ code := StatusOK,
              body := .message { m with Status := Rejected, RejectedAt := some now } },
            { heap := w.heap.set p { m with Status := Rejected, RejectedAt := some now },
              storage := { messages := mapAssign m.ID p w.storage.messages } }) := by
  have hlt := read_lt w p m hread
  unfold World.read at hread
  simp [handleRejectMessage, hid, hget, World.read, hread, hs, World.modify,
    UpdateMessage, hlt]

theorem handleApproveMessage_conflict (w : World) (id : String) (now : Time) (p : Ptr)
    (m : Message) (hid : id ≠ "") (hget : GetMessage w id = some p)
    (hread : w.read p = some m) (hs : m.Status ≠ Pending) :
    handleApproveMessage w id now =
      some ({ code := StatusConflict, body := .error "Message is not in a pending state" }, w) := by
  simp [handleApproveMessage, hid, hget, hread, hs]

theorem handleRejectMessage_conflict (w : World) (id : String) (now : Time) (p : Ptr)
    (m : Message) (hid : id ≠ "") (hget : GetMessage w id = some p)
    (hread : w.read p = some m) (hs : m.Status ≠ Pending) :
    handleRejectMessage w id now =
      some ({ code := StatusConflict, body := .error "Message is not in a pending state" }, w) := by
  simp [handleRejectMessage, hid, hget, hread, hs]

/-! ## Creation -/

/-- C1: for every store, every non-empty content and recipient, every generated
id and every clock value, `handleMessages` answers 200 with the message made of
exactly these inputs, `Pending`, with both optional timestamps absent; and
afterwards `GetMessage` on the generated id finds exactly that message. -/
theorem handleMessages_creates_pending (w : World) (content recipient newID : String)
    (now : Time) (hc : content ≠ "") (hr : recipient ≠ "") :
    ∃ w1 p,
      handleMessages w (some { Content := content, Recipient := recipient }) newID now =
        some ({ code := 200,
                body := .message
                  { ID := newID, Content := content, Recipient := recipient,
                    Status := Pending, CreatedAt := now, ApprovedAt := none,
                    RejectedAt := none } }, w1) ∧
      GetMessage w1 newID = some p ∧
      w1.read p =
        some { ID := newID, Content := content, Recipient := recipient,
               Status := Pending, CreatedAt := now, ApprovedAt := none,
               RejectedAt := none } := by
  refine ⟨_, w.heap.length, handleMessages_ok w ⟨content, recipient⟩ newID now hc hr, ?_, ?_⟩
  · simp [GetMessage, mapLookup_mapAssign_self]
  · simp [World.read, newMessage]

theorem handleMessages_creates_pending_witness :
    "Hello, World!" ≠ "" ∧ "user@example.com" ≠ "" ∧
    ∃ w1 p,
      handleMessages NewStorage
          (some { Content := "Hello, World!", Recipient := "user@example.com" }) "id-1" 17 =
        some ({ code := 200,
                body := .message
                  { ID := "id-1", Content := "Hello, World!", Recipient := "user@example.com",
                    Status := Pending, CreatedAt := 17, ApprovedAt := none,
                    RejectedAt := none } }, w1) ∧
      GetMessage w1 "id-1" = some p ∧
      w1.read p =
        some { ID := "id-1", Content := "Hello, World!", Recipient := "user@example.com",
               Status := Pending, CreatedAt := 17, ApprovedAt := none,
               RejectedAt := none } :=
  ⟨by decide, by decide,
    handleMessages_creates_pending NewStorage "Hello, World!" "user@example.com" "id-1" 17
      (by decide) (by decide)⟩

/-- C2: for every store, a creation request whose body does not decode, or whose
content is empty, or whose recipient is empty, is answered 400, and the state
after the call is the state before it. -/
theorem handleMessages_rejects_bad_request (w : World)
    (decoded : Option CreateMessageRequest) (newID : String) (now : Time)
    (hbad : decoded = none ∨
      ∃ req, decoded = some req ∧ (req.Content = "" ∨ req.Recipient = "")) :
    ∃ r, handleMessages w decoded newID now = some (r, w) ∧ r.code = 400 := by
  rcases hbad with h | ⟨req, h, hreq⟩
  · subst h
    exact ⟨_, rfl, rfl⟩
  · subst h
    refine ⟨{ code := StatusBadRequest, body := .error "Content and Recipient are required" },
      ?_, rfl⟩
    simp [handleMessages, hreq]

theorem handleMessages_rejects_bad_request_witness :
    (some (CreateMessageRequest.mk "" "a@b.com") = none ∨
      ∃ req, some (CreateMessageRequest.mk "" "a@b.com") = some req ∧
        (req.Content = "" ∨ req.Recipient = "")) ∧
    ∃ r, handleMessages
        { heap := [{ ID := "k", Content := "c", Recipient := "r", Status := Pending,
                     CreatedAt := 1, ApprovedAt := none, RejectedAt := none }],
          storage := { messages := [("k", 0)] } }
        (some { Content := "", Recipient := "a@b.com" }) "id-2" 5 =
      some (r,
        { heap := [{ ID := "k", Content := "c", Recipient := "r", Status := Pending,
                     CreatedAt := 1, ApprovedAt := none, RejectedAt := none }],
          storage := { messages := [("k", 0)] } }) ∧ r.code = 400 :=
  ⟨Or.inr ⟨_, rfl, Or.inl rfl⟩,
    handleMessages_rejects_bad_request _ _ "id-2" 5 (Or.inr ⟨_, rfl, Or.inl rfl⟩)⟩

/-! ## Approval and rejection -/

/-- C3: when the store holds, under a non-empty id, a `Pending` message whose
`RejectedAt` is absent, `handleApproveMessage` on that id answers 200, and the
record it returns, which is also the record `GetMessage` finds afterwards, has
`Status = Approved`, `ApprovedAt = now` and `RejectedAt` absent (every other
field is the one of the pending message). -/
theorem handleApproveMessage_approves_pending (w : World) (id : String) (now : Time)
    (p : Ptr) (m : Message) (hid : id ≠ "") (hget : GetMessage w id = some p)
    (hread : w.read p = some m) (hs : m.Status = Pending) (hrej : m.RejectedAt = none) :
    ∃ w1 out q,
      handleApproveMessage w id now = some ({ code := 200, body := .message out }, w1) ∧
      out = { m with Status := Approved, ApprovedAt := some now } ∧
      out.Status = Approved ∧ out.ApprovedAt = some now ∧ out.RejectedAt = none ∧
      GetMessage w1 id = some q ∧ w1.read q = some out := by
  refine ⟨_, _, p, handleApproveMessage_ok w id now p m hid hget hread hs, rfl, rfl, rfl,
    hrej, ?_, ?_⟩
  · by_cases h : id = m.ID
    · subst h
      simp [GetMessage, mapLookup_mapAssign_self]
    · simpa [GetMessage, mapLookup_mapAssign_ne _ _ _ _ h] using hget
  · have hlt := read_lt w p m hread
    simp [World.read, hlt]

theorem handleApproveMessage_approves_pending_witness :
    ∃ w1 out q,
      handleApproveMessage
          { heap := [{ ID := "k", Content := "c", Recipient := "r", Status := Pending,
                       CreatedAt := 1, ApprovedAt := none, RejectedAt := none }],
            storage := { messages := [("k", 0)] } } "k" 9 =
        some ({ code := 200, body := .message out }, w1) ∧
      out = { ID := "k", Content := "c", Recipient := "r", Status := Approved,
              CreatedAt := 1, ApprovedAt := some 9, RejectedAt := none } ∧
      out.Status = Approved ∧ out.ApprovedAt = some 9 ∧ out.RejectedAt = none ∧
      GetMessage w1 "k" = some q ∧ w1.read q = some out :=
  handleApproveMessage_approves_pending
    { heap := [{ ID := "k", Content := "c", Recipient := "r", Status := Pending,
                 CreatedAt := 1, ApprovedAt := none, RejectedAt := none }],
      storage := { messages := [("k", 0)] } } "k" 9 0
    { ID := "k", Content := "c", Recipient := "r", Status := Pending,
      CreatedAt := 1, ApprovedAt := none, RejectedAt := none }
    (by decide) (by decide) (by decide) (by decide) (by decide)

/-- C4: when the store holds, under a non-empty id, a `Pending` message whose
`ApprovedAt` is absent, `handleRejectMessage` on that id answers 200, and the
record it returns, which is also the record `GetMessage` finds afterwards, has
`Status = Rejected`, `RejectedAt = now` and `ApprovedAt` absent. -/
theorem handleRejectMessage_rejects_pending (w : World) (id : String) (now : Time)
    (p : Ptr) (m : Message) (hid : id ≠ "") (hget : GetMessage w id = some p)
    (hread : w.read p = some m) (hs : m.Status = Pending) (happ : m.ApprovedAt = none) :
    ∃ w1 out q,
      handleRejectMessage w id now = some ({ code := 200, body := .message out }, w1) ∧
      out = { m with Status := Rejected, RejectedAt := some now } ∧
      out.Status = Rejected ∧ out.RejectedAt = some now ∧ out.ApprovedAt = none ∧
      GetMessage w1 id = some q ∧ w1.read q = some out := by
  refine ⟨_, _, p, handleRejectMessage_ok w id now p m hid hget hread hs, rfl, rfl, rfl,
    happ, ?_, ?_⟩
  · by_cases h : id = m.ID
    · subst h
      simp [GetMessage, mapLookup_mapAssign_self]
    · simpa [GetMessage, mapLookup_mapAssign_ne _ _ _ _ h] using hget
  · have hlt := read_lt w p m hread
    simp [World.read, hlt]

theorem handleRejectMessage_rejects_pending_witness :
    ∃ w1 out q,
      handleRejectMessage
          { heap := [{ ID := "k", Content := "c", Recipient := "r", Status := Pending,
                       CreatedAt := 1, ApprovedAt := none, RejectedAt := none }],
            storage := { messages := [("k", 0)] } } "k" 9 =
        some ({ code := 200, body := .message out }, w1) ∧
      out = { ID := "k", Content := "c", Recipient := "r", Status := Rejected,
              CreatedAt := 1, ApprovedAt := none, RejectedAt := some 9 } ∧
      out.Status = Rejected ∧ out.RejectedAt = some 9 ∧ out.ApprovedAt = none ∧
      GetMessage w1 "k" = some q ∧ w1.read q = some out :=
  handleRejectMessage_rejects_pending
    { heap := [{ ID := "k", Content := "c", Recipient := "r", Status := Pending,
                 CreatedAt := 1, ApprovedAt := none, RejectedAt := none }],
      storage := { messages := [("k", 0)] } } "k" 9 0
    { ID := "k", Content := "c", Recipient := "r", Status := Pending,
      CreatedAt := 1, ApprovedAt := none, RejectedAt := none }
    (by decide) (by decide) (by decide) (by decide) (by decide)

/-- C5, the claim as stated fails: a store holds an `Approved` message under the
empty id, and both handlers answer 400 there, not 409. -/
theorem conflict_not_answered_on_empty_id :
    GetMessage
        { heap := [{ ID := "", Content := "c", Recipient := "r", Status := Approved,
                     CreatedAt := 1, ApprovedAt := some 2, RejectedAt := none }],
          storage := { messages := [("", 0)] } } "" = some 0 ∧
    World.read
        { heap := [{ ID := "", Content := "c", Recipient := "r", Status := Approved,
                     CreatedAt := 1, ApprovedAt := some 2, RejectedAt := none }],
          storage := { messages := [("", 0)] } } 0 =
      some { ID := "", Content := "c", Recipient := "r", Status := Approved,
             CreatedAt := 1, ApprovedAt := some 2, RejectedAt := none } ∧
    Option.map (fun x => x.1.code)
        (handleApproveMessage
          { heap := [{ ID := "", Content := "c", Recipient := "r", Status := Approved,
                       CreatedAt := 1, ApprovedAt := some 2, RejectedAt := none }],
            storage := { messages := [("", 0)] } } "" 3) = some 400 ∧
    Option.map (fun x => x.1.code)
        (handleRejectMessage
          { heap := [{ ID := "", Content := "c", Recipient := "r", Status := Approved,
                       CreatedAt := 1, ApprovedAt := some 2, RejectedAt := none }],
            storage := { messages := [("", 0)] } } "" 3) = some 400 := by
  decide

theorem trace_conflicts (w : World) (id : String) (p : Ptr) (m : Message)
    (hid : id ≠ "") (hget : GetMessage w id = some p) (hread : w.read p = some m)
    (hs : m.Status ≠ Pending) (cs : List Call)
    (hcs : ∀ c ∈ cs, (∃ now, c = .approve id now) ∨ (∃ now, c = .reject id now)) :
    trace w cs =
      some (List.replicate cs.length
        { code := StatusConflict, body := .error "Message is not in a pending state" }, w) := by
  induction cs with
  | nil => rfl
  | cons c cs ih =>
    have ih1 := ih (fun c1 h1 => hcs c1 (List.mem_cons_of_mem _ h1))
    rcases hcs c (List.mem_cons_self _ _) with ⟨now, hc⟩ | ⟨now, hc⟩
    · subst hc
      simp [trace, step, handleApproveMessage_conflict w id now p m hid hget hread hs, ih1,
        List.replicate_succ]
    · subst hc
      simp [trace, step, handleRejectMessage_conflict w id now p m hid hget hread hs, ih1,
        List.replicate_succ]

/-- C5, amended: for every store and every message stored under a non-empty id
whose `Status` is `Approved` or `Rejected`, `handleApproveMessage` and
`handleRejectMessage` on that id answer 409 and leave the state, and so the
record, as it was; and every sequence of such attempts is answered 409 each
time and ends in the same state. -/
theorem terminal_message_conflicts (w : World) (id : String) (p : Ptr) (m : Message)
    (hid : id ≠ "") (hget : GetMessage w id = some p) (hread : w.read p = some m)
    (hterm : m.Status = Approved ∨ m.Status = Rejected) :
    (∀ now, ∃ r, handleApproveMessage w id now = some (r, w) ∧ r.code = 409) ∧
    (∀ now, ∃ r, handleRejectMessage w id now = some (r, w) ∧ r.code = 409) ∧
    record w id = some m ∧
    ∀ cs : List Call,
      (∀ c ∈ cs, (∃ now, c = .approve id now) ∨ (∃ now, c = .reject id now)) →
      ∃ rs, trace w cs = some (rs, w) ∧ rs.length = cs.length ∧ ∀ r ∈ rs, r.code = 409 := by
  have hs : m.Status ≠ Pending := by
    rcases hterm with h | h <;> rw [h] <;> decide
  refine ⟨fun now => ⟨_, handleApproveMessage_conflict w id now p m hid hget hread hs, rfl⟩,
    fun now => ⟨_, handleRejectMessage_conflict w id now p m hid hget hread hs, rfl⟩,
    by simp [record, hget, hread], ?_⟩
  intro cs hcs
  refine ⟨_, trace_conflicts w id p m hid hget hread hs cs hcs, by simp, ?_⟩
  intro r hr
  rw [(List.mem_replicate.mp hr).2]
  rfl

theorem terminal_message_conflicts_witness :
    (∀ now, ∃ r,
      handleApproveMessage
          { heap := [{ ID := "k", Content := "c", Recipient := "r", Status := Approved,
                       CreatedAt := 1, ApprovedAt := some 2, RejectedAt := none }],
            storage := { messages := [("k", 0)] } } "k" now =
        some (r,
          { heap := [{ ID := "k", Content := "c", Recipient := "r", Status := Approved,
                       CreatedAt := 1, ApprovedAt := some 2, RejectedAt := none }],
            storage := { messages := [("k", 0)] } }) ∧ r.code = 409) ∧
    (∀ now, ∃ r,
      handleRejectMessage
          { heap := [{ ID := "k", Content := "c", Recipient := "r", Status := Approved,
                       CreatedAt := 1, ApprovedAt := some 2, RejectedAt := none }],
            storage := { messages := [("k", 0)] } } "k" now =
        some (r,
          { heap := [{ ID := "k", Content := "c", Recipient := "r", Status := Approved,
                       CreatedAt := 1, ApprovedAt := some 2, RejectedAt := none }],
            storage := { messages := [("k", 0)] } }) ∧ r.code = 409) :=
  have h := terminal_message_conflicts
    { heap := [{ ID := "k", Content := "c", Recipient := "r", Status := Approved,
                 CreatedAt := 1, ApprovedAt := some 2, RejectedAt := none }],
      storage := { messages := [("k", 0)] } } "k" 0
    { ID := "k", Content := "c", Recipient := "r", Status := Approved,
      CreatedAt := 1, ApprovedAt := some 2, RejectedAt := none }
    (by decide) (by decide) (by decide) (Or.inl (by decide))
  ⟨h.1, h.2.1⟩

/-- C6: for every store and every non-empty id that has no record,
`handleApproveMessage` and `handleRejectMessage` answer 404 and the state after
the call is the state before it. -/
theorem unknown_id_not_found (w : World) (id : String) (now : Time) (hid : id ≠ "")
    (hget : GetMessage w id = none) :
    (∃ r, handleApproveMessage w id now = some (r, w) ∧ r.code = 404) ∧
    (∃ r, handleRejectMessage w id now = some (r, w) ∧ r.code = 404) := by
  constructor
  · exact ⟨{ code := StatusNotFound, body := .error "Message not found" },
      by simp [handleApproveMessage, hid, hget], rfl⟩
  · exact ⟨{ code := StatusNotFound, body := .error "Message not found" },
      by simp [handleRejectMessage, hid, hget], rfl⟩

theorem unknown_id_not_found_witness :
    (∃ r, handleApproveMessage
        { heap := [{ ID := "k", Content := "c", Recipient := "r", Status := Pending,
                     CreatedAt := 1, ApprovedAt := none, RejectedAt := none }],
          storage := { messages := [("k", 0)] } } "unknown-id" 4 =
      some (r,
        { heap := [{ ID := "k", Content := "c", Recipient := "r", Status := Pending,
                     CreatedAt := 1, ApprovedAt := none, RejectedAt := none }],
          storage := { messages := [("k", 0)] } }) ∧ r.code = 404) ∧
    (∃ r, handleRejectMessage
        { heap := [{ ID := "k", Content := "c", Recipient := "r", Status := Pending,
                     CreatedAt := 1, ApprovedAt := none, RejectedAt := none }],
          storage := { messages := [("k", 0)] } } "unknown-id" 4 =
      some (r,
        { heap := [{ ID := "k", Content := "c", Recipient := "r", Status := Pending,
                     CreatedAt := 1, ApprovedAt := none, RejectedAt := none }],
          storage := { messages := [("k", 0)] } }) ∧ r.code = 404) :=
  unknown_id_not_found _ "unknown-id" 4 (by decide) (by decide)

/-! ## The invariant of the service -/

theorem rangeOrder_perm {α : Type} (order : Nat) (l : List α) :
    (rangeOrder order l).Perm l := by
  unfold rangeOrder
  rw [List.getD_eq_getElem?_getD]
  cases h : (List.permutations' l)[order]? with
  | none => simp
  | some x =>
    have hx : x ∈ List.permutations' l := List.getElem?_mem h
    simpa using List.mem_permutations'.mp hx

theorem encodeAll_some (w : World) (ps : List Ptr)
    (h : ∀ p ∈ ps, ∃ m, w.read p = some m) : ∃ ms, encodeAll w ps = some ms := by
  induction ps with
  | nil => exact ⟨[], rfl⟩
  | cons p ps ih =>
    obtain ⟨m, hm⟩ := h p (List.mem_cons_self _ _)
    obtain ⟨ms, hms⟩ := ih (fun q hq => h q (List.mem_cons_of_mem _ hq))
    exact ⟨m :: ms, by simp [encodeAll, hm, hms]⟩

theorem newMessage_sound (req : CreateMessageRequest) (newID : String) (now : Time)
    (hc : req.Content ≠ "") (hr : req.Recipient ≠ "") :
    Sound (newMessage req newID now) := by
  simp [Sound, Stamped, KnownStatus, newMessage, Pending, Approved, Rejected, hc, hr]

theorem approved_sound (m : Message) (now : Time) (h : Sound m) (hs : m.Status = Pending) :
    Sound { m with Status := Approved, ApprovedAt := some now } := by
  obtain ⟨⟨_, hrej⟩, _, hc, hr⟩ := h
  rw [hs] at hrej
  refine ⟨⟨by simp, ?_⟩, Or.inr (Or.inl rfl), hc, hr⟩
  simp only [hrej]
  decide

theorem rejected_sound (m : Message) (now : Time) (h : Sound m) (hs : m.Status = Pending) :
    Sound { m with Status := Rejected, RejectedAt := some now } := by
  obtain ⟨⟨happ, _⟩, _, hc, hr⟩ := h
  rw [hs] at happ
  refine ⟨⟨?_, by simp⟩, Or.inr (Or.inr rfl), hc, hr⟩
  simp only [happ]
  decide

theorem consistent_create (w : World) (m0 : Message) (h : Consistent w) (hm : Sound m0) :
    Consistent { heap := w.heap ++ [m0],
                 storage := { messages := mapAssign m0.ID w.heap.length w.storage.messages } } := by
  intro e he
  rcases mem_mapAssign _ _ _ _ he with he | he
  · subst he
    exact ⟨m0, by simp [World.read], rfl, hm⟩
  · obtain ⟨m, hr, hid, hst⟩ := h e he
    refine ⟨m, ?_, hid, hst⟩
    have hlt := read_lt w e.2 m hr
    unfold World.read at hr ⊢
    simp [List.getElem?_append_left hlt, hr]

theorem consistent_set (w : World) (p : Ptr) (m m1 : Message) (h : Consistent w)
    (hread : w.read p = some m) (hid : m1.ID = m.ID) (hm : Sound m1) :
    Consistent { heap := w.heap.set p m1,
                 storage := { messages := mapAssign m.ID p w.storage.messages } } := by
  have hlt := read_lt w p m hread
  intro e he
  rcases mem_mapAssign _ _ _ _ he with he | he
  · subst he
    exact ⟨m1, by simp [World.read, hlt], hid, hm⟩
  · obtain ⟨m2, hr, hid2, hst⟩ := h e he
    by_cases hp : e.2 = p
    · rw [hp] at hr
      rw [hread] at hr
      cases hr
      exact ⟨m1, by simp [World.read, hp, hlt], by rw [hid, hid2], hm⟩
    · refine ⟨m2, ?_, hid2, hst⟩
      unfold World.read at hr ⊢
      simp [List.getElem?_set_ne (Ne.symm hp), hr]

theorem consistent_lookup (w : World) (id : String) (p : Ptr) (h : Consistent w)
    (hget : GetMessage w id = some p) : ∃ m, w.read p = some m ∧ m.ID = id ∧ Sound m :=
  h (id, p) (mem_of_mapLookup id p _ hget)

/-- A creation either fails validation, leaves the state as it is and asks for
no id, or carries a valid request and asks for `newID`. -/
theorem handleMessages_cases (w : World) (decoded : Option CreateMessageRequest)
    (newID : String) (now : Time) :
    (∃ r, handleMessages w decoded newID now = some (r, w) ∧ generated (.create decoded newID now) = none) ∨
    (∃ req, decoded = some req ∧ req.Content ≠ "" ∧ req.Recipient ≠ "" ∧
      generated (.create decoded newID now) = some newID) := by
  cases decoded with
  | none => exact Or.inl ⟨_, rfl, rfl⟩
  | some req =>
    by_cases h : req.Content = "" ∨ req.Recipient = ""
    · exact Or.inl ⟨{ code := StatusBadRequest, body := .error "Content and Recipient are required" },
        by simp [handleMessages, h], by simp [generated, h]⟩
    · have h1 : req.Content ≠ "" := fun h2 => h (Or.inl h2)
      have h2 : req.Recipient ≠ "" := fun h3 => h (Or.inr h3)
      exact Or.inr ⟨req, rfl, h1, h2, by simp [generated, h]⟩

theorem handleApproveMessage_cases (w : World) (id : String) (now : Time)
    (h : Consistent w) :
    (∃ r, handleApproveMessage w id now = some (r, w)) ∨
    (∃ p m, id ≠ "" ∧ GetMessage w id = some p ∧ w.read p = some m ∧ m.ID = id ∧
      Sound m ∧ m.Status = Pending) := by
  by_cases hid : id = ""
  · exact Or.inl ⟨{ code := StatusBadRequest, body := .error "Message ID is required" },
      by simp [handleApproveMessage, hid]⟩
  · rcases Option.eq_none_or_eq_some (GetMessage w id) with hget | ⟨p, hget⟩
    · exact Or.inl ⟨{ code := StatusNotFound, body := .error "Message not found" },
        by simp [handleApproveMessage, hid, hget]⟩
    · obtain ⟨m, hread, hmid, hm⟩ := consistent_lookup w id p h hget
      by_cases hs : m.Status = Pending
      · exact Or.inr ⟨p, m, hid, hget, hread, hmid, hm, hs⟩
      · exact Or.inl ⟨_, handleApproveMessage_conflict w id now p m hid hget hread hs⟩

theorem handleRejectMessage_cases (w : World) (id : String) (now : Time)
    (h : Consistent w) :
    (∃ r, handleRejectMessage w id now = some (r, w)) ∨
    (∃ p m, id ≠ "" ∧ GetMessage w id = some p ∧ w.read p = some m ∧ m.ID = id ∧
      Sound m ∧ m.Status = Pending) := by
  by_cases hid : id = ""
  · exact Or.inl ⟨{ code := StatusBadRequest, body := .error "Message ID is required" },
      by simp [handleRejectMessage, hid]⟩
  · rcases Option.eq_none_or_eq_some (GetMessage w id) with hget | ⟨p, hget⟩
    · exact Or.inl ⟨{ code := StatusNotFound, body := .error "Message not found" },
        by simp [handleRejectMessage, hid, hget]⟩
    · obtain ⟨m, hread, hmid, hm⟩ := consistent_lookup w id p h hget
      by_cases hs : m.Status = Pending
      · exact Or.inr ⟨p, m, hid, hget, hread, hmid, hm, hs⟩
      · exact Or.inl ⟨_, handleRejectMessage_conflict w id now p m hid hget hread hs⟩

theorem handleViewMessages_total (w : World) (order : Nat) (h : Consistent w) :
    ∃ ms, handleViewMessages w order = some ({ code := StatusOK, body := .messages ms }, w) := by
  have hall : ∀ p ∈ GetAllMessages w order, ∃ m, w.read p = some m := by
    intro p hp
    obtain ⟨e, he, hep⟩ := List.mem_map.mp hp
    have he1 : e ∈ w.storage.messages := (rangeOrder_perm order _).mem_iff.mp he
    obtain ⟨m, hm, _⟩ := h e he1
    exact ⟨m, hep ▸ hm⟩
  obtain ⟨ms, hms⟩ := encodeAll_some w _ hall
  exact ⟨ms, by simp [handleViewMessages, hms]⟩

theorem step_consistent (w : World) (c : Call) (h : Consistent w) :
    ∃ r w1, step w c = some (r, w1) ∧ Consistent w1 := by
  cases c with
  | create decoded newID now =>
    rcases handleMessages_cases w decoded newID now with ⟨r, hr, _⟩ | ⟨req, hd, hc, hr, _⟩
    · exact ⟨r, w, hr, h⟩
    · subst hd
      exact ⟨_, _, handleMessages_ok w req newID now hc hr,
        consistent_create w (newMessage req newID now) h (newMessage_sound req newID now hc hr)⟩
  | approve id now =>
    rcases handleApproveMessage_cases w id now h with ⟨r, hr⟩ | ⟨p, m, hid, hget, hread, _, hm, hs⟩
    · exact ⟨r, w, hr, h⟩
    · exact ⟨_, _, handleApproveMessage_ok w id now p m hid hget hread hs,
        consistent_set w p m _ h hread rfl (approved_sound m now hm hs)⟩
  | reject id now =>
    rcases handleRejectMessage_cases w id now h with ⟨r, hr⟩ | ⟨p, m, hid, hget, hread, _, hm, hs⟩
    · exact ⟨r, w, hr, h⟩
    · exact ⟨_, _, handleRejectMessage_ok w id now p m hid hget hread hs,
        consistent_set w p m _ h hread rfl (rejected_sound m now hm hs)⟩
  | view order =>
    obtain ⟨ms, hms⟩ := handleViewMessages_total w order h
    exact ⟨_, w, hms, h⟩

theorem run_consistent (cs : List Call) (w : World) (h : Consistent w) :
    ∃ w1, run w cs = some w1 ∧ Consistent w1 := by
  induction cs generalizing w with
  | nil => exact ⟨w, rfl, h⟩
  | cons c cs ih =>
    obtain ⟨r, w1, hstep, h1⟩ := step_consistent w c h
    obtain ⟨w2, hrun, h2⟩ := ih w1 h1
    exact ⟨w2, by simp [run, hstep, hrun], h2⟩

theorem newStorage_consistent : Consistent NewStorage := by
  intro e he
  simp [NewStorage] at he

/-- C7: in every state reached from the empty store by a finite sequence of
creation, approve, reject and listing requests (every such sequence does reach
a state), every entry of the map points to a message whose `ApprovedAt` is
present exactly when its `Status` is `Approved` and whose `RejectedAt` is
present exactly when its `Status` is `Rejected`. -/
theorem reachable_timestamps_match_status (cs : List Call) :
    ∃ w, run NewStorage cs = some w ∧
      ∀ e ∈ w.storage.messages, ∃ m, w.read e.2 = some m ∧
        (m.ApprovedAt.isSome = true ↔ m.Status = Approved) ∧
        (m.RejectedAt.isSome = true ↔ m.Status = Rejected) := by
  obtain ⟨w, hrun, hw⟩ := run_consistent cs NewStorage newStorage_consistent
  refine ⟨w, hrun, ?_⟩
  intro e he
  obtain ⟨m, hread, _, hst, _⟩ := hw e he
  exact ⟨m, hread, hst⟩

/-! ## One status change at most -/

theorem record_create (w : World) (m0 : Message) (h : Consistent w) (id : String) :
    record { heap := w.heap ++ [m0],
             storage := { messages := mapAssign m0.ID w.heap.length w.storage.messages } } id =
      if id = m0.ID then some m0 else record w id := by
  by_cases hid : id = m0.ID
  · subst hid
    simp [record, GetMessage, mapLookup_mapAssign_self, World.read]
  · simp only [record, GetMessage, mapLookup_mapAssign_ne _ _ _ _ hid, hid, if_false]
    rcases Option.eq_none_or_eq_some (mapLookup id w.storage.messages) with hget | ⟨p, hget⟩
    · simp [hget]
    · obtain ⟨m, hread, _⟩ := consistent_lookup w id p h hget
      have hlt := read_lt w p m hread
      simp [hget, World.read, List.getElem?_append_left hlt]

theorem record_set (w : World) (p : Ptr) (m m1 : Message) (h : Consistent w)
    (hread : w.read p = some m) (id : String) :
    record { heap := w.heap.set p m1,
             storage := { messages := mapAssign m.ID p w.storage.messages } } id =
      if id = m.ID then some m1 else record w id := by
  have hlt := read_lt w p m hread
  by_cases hid : id = m.ID
  · subst hid
    simp [record, GetMessage, mapLookup_mapAssign_self, World.read, hlt]
  · simp only [record, GetMessage, mapLookup_mapAssign_ne _ _ _ _ hid, hid, if_false]
    rcases Option.eq_none_or_eq_some (mapLookup id w.storage.messages) with hg | ⟨q, hg⟩
    · simp [hg]
    · obtain ⟨m2, hread2, hid2, _⟩ := consistent_lookup w id q h hg
      have hne : p ≠ q := by
        intro hpq
        subst hpq
        rw [hread] at hread2
        cases hread2
        exact hid hid2.symm
      simp [hg, World.read, List.getElem?_set_ne hne]

theorem record_none_of_lookup (w : World) (id : String) (h : GetMessage w id = none) :
    record w id = none := by
  simp [record, h]

/-- What one request does to the record under an id: nothing, or it creates it
as a `Pending` record, or it takes it from `Pending` to a final status. -/
theorem step_record (w w1 : World) (c : Call) (r : Response) (h : Consistent w)
    (hfresh : ∀ newID, generated c = some newID → GetMessage w newID = none)
    (hstep : step w c = some (r, w1)) (id : String) :
    record w1 id = record w id ∨
    (record w id = none ∧ ∃ m, record w1 id = some m ∧ m.Status = Pending ∧
      m.ApprovedAt = none ∧ m.RejectedAt = none) ∨
    (∃ m m1, record w id = some m ∧ m.Status = Pending ∧ record w1 id = some m1 ∧
      Terminal m1) := by
  cases c with
  | create decoded newID now =>
    rcases handleMessages_cases w decoded newID now with ⟨r1, hr, _⟩ | ⟨req, hd, hc, hr, hgen⟩
    · simp only [step, hr, Option.some.injEq, Prod.mk.injEq] at hstep
      rw [← hstep.2]
      exact Or.inl rfl
    · subst hd
      simp only [step, handleMessages_ok w req newID now hc hr, Option.some.injEq,
        Prod.mk.injEq] at hstep
      rw [← hstep.2]
      have hrec := record_create w (newMessage req newID now) h id
      by_cases hid : id = newID
      · subst hid
        refine Or.inr (Or.inl ⟨record_none_of_lookup w id (hfresh id hgen),
          newMessage req id now, ?_, rfl, rfl, rfl⟩)
        simpa [newMessage] using hrec
      · refine Or.inl ?_
        simpa [newMessage, hid] using hrec
  | approve id2 now =>
    rcases handleApproveMessage_cases w id2 now h with
      ⟨r1, hr⟩ | ⟨p, m, hid2, hget, hread, hmid, _, hs⟩
    · simp only [step, hr, Option.some.injEq, Prod.mk.injEq] at hstep
      rw [← hstep.2]
      exact Or.inl rfl
    · simp only [step, handleApproveMessage_ok w id2 now p m hid2 hget hread hs,
        Option.some.injEq, Prod.mk.injEq] at hstep
      rw [← hstep.2]
      have hrec := record_set w p m { m with Status := Approved, ApprovedAt := some now } h
        hread id
      by_cases hid : id = m.ID
      · refine Or.inr (Or.inr ⟨m, { m with Status := Approved, ApprovedAt := some now },
          ?_, hs, ?_, Or.inl rfl⟩)
        · simp [record, hid, hmid, hget, hread]
        · simpa [hid] using hrec
      · refine Or.inl ?_
        simpa [hid] using hrec
  | reject id2 now =>
    rcases handleRejectMessage_cases w id2 now h with
      ⟨r1, hr⟩ | ⟨p, m, hid2, hget, hread, hmid, _, hs⟩
    · simp only [step, hr, Option.some.injEq, Prod.mk.injEq] at hstep
      rw [← hstep.2]
      exact Or.inl rfl
    · simp only [step, handleRejectMessage_ok w id2 now p m hid2 hget hread hs,
        Option.some.injEq, Prod.mk.injEq] at hstep
      rw [← hstep.2]
      have hrec := record_set w p m { m with Status := Rejected, RejectedAt := some now } h
        hread id
      by_cases hid : id = m.ID
      · refine Or.inr (Or.inr ⟨m, { m with Status := Rejected, RejectedAt := some now },
          ?_, hs, ?_, Or.inr rfl⟩)
        · simp [record, hid, hmid, hget, hread]
        · simpa [hid] using hrec
      · refine Or.inl ?_
        simpa [hid] using hrec
  | view order =>
    obtain ⟨ms, hms⟩ := handleViewMessages_total w order h
    simp only [step, hms, Option.some.injEq, Prod.mk.injEq] at hstep
    rw [← hstep.2]
    exact Or.inl rfl

theorem pending_not_terminal (m : Message) (hs : m.Status = Pending) : ¬ Terminal m := by
  intro h
  rcases h with h | h <;> rw [hs] at h <;> revert h <;> decide

theorem consistent_record (w : World) (id : String) (m : Message) (h : Consistent w)
    (hrec : record w id = some m) : m.ID = id ∧ Sound m := by
  unfold record at hrec
  rcases Option.eq_none_or_eq_some (GetMessage w id) with hget | ⟨p, hget⟩
  · simp [hget] at hrec
  · obtain ⟨m2, hread, hid, hm⟩ := consistent_lookup w id p h hget
    simp only [hget, hread, Option.some.injEq] at hrec
    subst hrec
    exact ⟨hid, hm⟩

theorem freshIds_head (w : World) (c : Call) (cs : List Call)
    (hf : freshIds w (c :: cs) = true) :
    ∀ newID, generated c = some newID → GetMessage w newID = none := by
  intro newID hgen
  simp only [freshIds, hgen, Bool.and_eq_true, Option.isNone_iff_eq_none] at hf
  exact hf.1

theorem freshIds_tail (w w1 : World) (c : Call) (cs : List Call) (r : Response)
    (hf : freshIds w (c :: cs) = true) (hstep : step w c = some (r, w1)) :
    freshIds w1 cs = true := by
  simp only [freshIds, hstep, Bool.and_eq_true] at hf
  exact hf.2

theorem freshIds_append (cs1 cs2 : List Call) (w w1 : World)
    (hf : freshIds w (cs1 ++ cs2) = true) (hrun : run w cs1 = some w1) :
    freshIds w1 cs2 = true := by
  induction cs1 generalizing w with
  | nil =>
    simp only [run, Option.some.injEq] at hrun
    subst hrun
    simpa using hf
  | cons c cs ih =>
    rcases Option.eq_none_or_eq_some (step w c) with hstep | ⟨⟨r, w0⟩, hstep⟩
    · simp [run, hstep] at hrun
    · simp only [run, hstep] at hrun
      exact ih w0 (freshIds_tail w w0 c (cs ++ cs2) r hf hstep) hrun

theorem run_record (cs : List Call) (w w2 : World) (h : Consistent w)
    (hf : freshIds w cs = true) (hrun : run w cs = some w2) (id : String) (m1 : Message)
    (hrec : record w id = some m1) :
    ∃ m2, record w2 id = some m2 ∧ (Terminal m1 → m2 = m1) := by
  induction cs generalizing w m1 with
  | nil =>
    simp only [run, Option.some.injEq] at hrun
    subst hrun
    exact ⟨m1, hrec, fun _ => rfl⟩
  | cons c cs ih =>
    obtain ⟨r, w1, hstep, h1⟩ := step_consistent w c h
    simp only [run, hstep] at hrun
    have hf1 := freshIds_tail w w1 c cs r hf hstep
    rcases step_record w w1 c r h (freshIds_head w c cs hf) hstep id with
      hsame | ⟨hnone, _⟩ | ⟨m, m0, hm, hs, hm0, _⟩
    · exact ih w1 h1 hf1 hrun m1 (hsame.trans hrec)
    · rw [hrec] at hnone
      cases hnone
    · rw [hrec] at hm
      cases hm
      obtain ⟨m2, hm2, _⟩ := ih w1 h1 hf1 hrun m0 hm0
      exact ⟨m2, hm2, fun ht => absurd ht (pending_not_terminal m1 hs)⟩

theorem statusesOf_head (id : String) (w : World) (cs : List Call) :
    ∃ tl, statusesOf id w cs = statusOf w id :: tl := by
  cases cs with
  | nil => exact ⟨[], rfl⟩
  | cons c cs => exact ⟨_, rfl⟩

theorem statusChanges_bound (id : String) (cs : List Call) (w : World) (h : Consistent w)
    (hf : freshIds w cs = true) :
    statusChanges (statusesOf id w cs) ≤ 1 ∧
    (∀ m, record w id = some m → Terminal m → statusChanges (statusesOf id w cs) = 0) := by
  induction cs generalizing w with
  | nil => simp [statusesOf, statusChanges]
  | cons c cs ih =>
    obtain ⟨r, w1, hstep, h1⟩ := step_consistent w c h
    have hf1 := freshIds_tail w w1 c cs r hf hstep
    obtain ⟨hle, hzero⟩ := ih w1 h1 hf1
    obtain ⟨tl, htl⟩ := statusesOf_head id w1 cs
    have hunf : statusesOf id w (c :: cs) = statusOf w id :: statusOf w1 id :: tl := by
      simp [statusesOf, hstep, htl]
    rw [htl] at hle hzero
    rw [hunf]
    rcases step_record w w1 c r h (freshIds_head w c cs hf) hstep id with
      hsame | ⟨hnone, _⟩ | ⟨m, m0, hm, hs, hm0, hterm⟩
    · have hst : statusOf w1 id = statusOf w id := by simp [statusOf, hsame]
      have hd : statusChanges (statusOf w id :: statusOf w1 id :: tl) =
          statusChanges (statusOf w1 id :: tl) := by
        rw [hst]
        cases hx : statusOf w id <;> simp [statusChanges]
      rw [hd]
      exact ⟨hle, fun m hm ht => hzero m (hsame.trans hm) ht⟩
    · have hd : statusChanges (statusOf w id :: statusOf w1 id :: tl) =
          statusChanges (statusOf w1 id :: tl) := by
        simp [statusOf, hnone, statusChanges]
      rw [hd]
      refine ⟨hle, fun m hm _ => ?_⟩
      rw [hnone] at hm
      cases hm
    · have hz := hzero m0 hm0 hterm
      have hd : statusChanges (statusOf w id :: statusOf w1 id :: tl) ≤
          1 + statusChanges (statusOf w1 id :: tl) := by
        simp only [statusOf, hm, hm0, Option.map_some', statusChanges]
        split <;> omega
      rw [hz] at hd
      refine ⟨hd, fun m2 hm2 ht => ?_⟩
      rw [hm] at hm2
      have he := Option.some.inj hm2
      rw [← he] at ht
      exact absurd ht (pending_not_terminal m hs)

theorem statusesOf_length (id : String) (cs : List Call) (w : World) (h : Consistent w) :
    (statusesOf id w cs).length = cs.length + 1 := by
  induction cs generalizing w with
  | nil => rfl
  | cons c cs ih =>
    obtain ⟨r, w1, hstep, h1⟩ := step_consistent w c h
    simp [statusesOf, hstep, ih w1 h1]

/-- C8: take any sequence of creation, approve, reject and listing requests,
run from the empty store, in which every generated id is new to the store, and
cut it anywhere into an earlier part and a later part.  Both parts run to a
state.  For every id: over the whole sequence the status of its record changes
at most once (the history has one entry for each state); a record that appears
with a request is `Pending` with both timestamps absent; and a record of the
earlier state has one of the three statuses, is still there in the later state,
and is the same record there once it is `Approved` or `Rejected`. -/
theorem status_changes_at_most_once (cs1 cs2 : List Call)
    (hfresh : freshIds NewStorage (cs1 ++ cs2) = true) :
    ∃ w1 w2, run NewStorage cs1 = some w1 ∧ run w1 cs2 = some w2 ∧
      ∀ id : String,
        (statusesOf id NewStorage (cs1 ++ cs2)).length = (cs1 ++ cs2).length + 1 ∧
        statusChanges (statusesOf id NewStorage (cs1 ++ cs2)) ≤ 1 ∧
        (∀ c m2, cs2 = [c] → record w1 id = none → record w2 id = some m2 →
          m2.Status = Pending ∧ m2.ApprovedAt = none ∧ m2.RejectedAt = none) ∧
        (∀ m1, record w1 id = some m1 →
          (m1.Status = Pending ∨ m1.Status = Approved ∨ m1.Status = Rejected) ∧
          ∃ m2, record w2 id = some m2 ∧
            (m1.Status = Approved ∨ m1.Status = Rejected → m2 = m1)) := by
  obtain ⟨w1, hrun1, h1⟩ := run_consistent cs1 NewStorage newStorage_consistent
  obtain ⟨w2, hrun2, _⟩ := run_consistent cs2 w1 h1
  have hf2 := freshIds_append cs1 cs2 NewStorage w1 hfresh hrun1
  refine ⟨w1, w2, hrun1, hrun2, fun id => ⟨?_, ?_, ?_, ?_⟩⟩
  · exact statusesOf_length id _ NewStorage newStorage_consistent
  · exact (statusChanges_bound id _ NewStorage newStorage_consistent hfresh).1
  · intro c m2 hc hnone hsome
    subst hc
    obtain ⟨r, w3, hstep, _⟩ := step_consistent w1 c h1
    simp only [run, hstep, Option.some.injEq] at hrun2
    subst hrun2
    rcases step_record w1 w3 c r h1 (freshIds_head w1 c [] hf2) hstep id with
      hsame | ⟨_, m, hm, hs, ha, hr⟩ | ⟨m, _, hm, _⟩
    · rw [hsame, hnone] at hsome
      cases hsome
    · rw [hm] at hsome
      have he := Option.some.inj hsome
      rw [← he]
      exact ⟨hs, ha, hr⟩
    · rw [hnone] at hm
      cases hm
  · intro m1 hm1
    exact ⟨(consistent_record w1 id m1 h1 hm1).2.2.1,
      run_record cs2 w1 w2 h1 hf2 hrun2 id m1 hm1⟩

theorem status_changes_at_most_once_witness :
    ∃ w1 w2,
      run NewStorage
        [Call.create (some { Content := "Hi", Recipient := "a@b.com" }) "m-1" 1,
         Call.approve "m-1" 2] = some w1 ∧
      run w1
        [Call.reject "m-1" 3,
         Call.create (some { Content := "Yo", Recipient := "c@d.com" }) "m-2" 4,
         Call.view 1] = some w2 ∧
      ∀ id : String,
        (statusesOf id NewStorage
          ([Call.create (some { Content := "Hi", Recipient := "a@b.com" }) "m-1" 1,
            Call.approve "m-1" 2] ++
           [Call.reject "m-1" 3,
            Call.create (some { Content := "Yo", Recipient := "c@d.com" }) "m-2" 4,
            Call.view 1])).length =
          ([Call.create (some { Content := "Hi", Recipient := "a@b.com" }) "m-1" 1,
            Call.approve "m-1" 2] ++
           [Call.reject "m-1" 3,
            Call.create (some { Content := "Yo", Recipient := "c@d.com" }) "m-2" 4,
            Call.view 1]).length + 1 ∧
        statusChanges (statusesOf id NewStorage
          ([Call.create (some { Content := "Hi", Recipient := "a@b.com" }) "m-1" 1,
            Call.approve "m-1" 2] ++
           [Call.reject "m-1" 3,
            Call.create (some { Content := "Yo", Recipient := "c@d.com" }) "m-2" 4,
            Call.view 1])) ≤ 1 ∧
        (∀ c m2,
          [Call.reject "m-1" 3,
           Call.create (some { Content := "Yo", Recipient := "c@d.com" }) "m-2" 4,
           Call.view 1] = [c] →
          record w1 id = none → record w2 id = some m2 →
          m2.Status = Pending ∧ m2.ApprovedAt = none ∧ m2.RejectedAt = none) ∧
        (∀ m1, record w1 id = some m1 →
          (m1.Status = Pending ∨ m1.Status = Approved ∨ m1.Status = Rejected) ∧
          ∃ m2, record w2 id = some m2 ∧
            (m1.Status = Approved ∨ m1.Status = Rejected → m2 = m1)) :=
  status_changes_at_most_once
    [Call.create (some { Content := "Hi", Recipient := "a@b.com" }) "m-1" 1,
     Call.approve "m-1" 2]
    [Call.reject "m-1" 3,
     Call.create (some { Content := "Yo", Recipient := "c@d.com" }) "m-2" 4,
     Call.view 1]
    (by decide)

/-! ## Listing -/

theorem mapLookup_none_of_not_mem (k : String) (l : List (String × Ptr))
    (h : k ∉ l.map Prod.fst) : mapLookup k l = none := by
  induction l with
  | nil => rfl
  | cons e rest ih =>
    obtain ⟨k1, p1⟩ := e
    simp only [List.map_cons, List.mem_cons, not_or] at h
    have h1 : ¬ k1 = k := fun h2 => h.1 h2.symm
    simp [mapLookup, h1, ih h.2]

theorem mapAssign_of_not_mem (k : String) (p : Ptr) (l : List (String × Ptr))
    (h : k ∉ l.map Prod.fst) : mapAssign k p l = l ++ [(k, p)] := by
  induction l with
  | nil => rfl
  | cons e rest ih =>
    obtain ⟨k1, p1⟩ := e
    simp only [List.map_cons, List.mem_cons, not_or] at h
    have h1 : ¬ k1 = k := fun h2 => h.1 h2.symm
    simp [mapAssign, h1, ih h.2]

theorem filterMap_range_heap (l : List Message) :
    (List.range l.length).filterMap (fun i => l[i]?) = l := by
  induction l using List.reverseRecOn with
  | nil => rfl
  | append_singleton l a ih =>
    rw [List.length_append, List.length_singleton, List.range_succ, List.filterMap_append]
    have h1 : (List.range l.length).filterMap (fun i => (l ++ [a])[i]?) =
        (List.range l.length).filterMap (fun i => l[i]?) := by
      apply List.filterMap_congr
      intro i hi
      exact List.getElem?_append_left (List.mem_range.mp hi)
    rw [h1, ih]
    simp

theorem encodeAll_eq_filterMap (w : World) (ps : List Ptr)
    (h : ∀ p ∈ ps, p < w.heap.length) :
    encodeAll w ps = some (ps.filterMap (fun i => w.heap[i]?)) := by
  induction ps with
  | nil => rfl
  | cons p ps ih =>
    have hp := h p (List.mem_cons_self _ _)
    have ih1 := ih (fun q hq => h q (List.mem_cons_of_mem _ hq))
    simp [encodeAll, World.read, ih1, List.getElem?_eq_getElem hp]

/-- When the pointers of the map are exactly the addresses of the heap, the
listing returns the objects of the heap, in the order of the `range` loop. -/
theorem listing_of_linked (w : World) (order : Nat)
    (hsnd : w.storage.messages.map Prod.snd = List.range w.heap.length) :
    ∃ ms, (GetAllMessages w order).length = w.heap.length ∧
      encodeAll w (GetAllMessages w order) = some ms ∧
      handleViewMessages w order = some ({ code := StatusOK, body := .messages ms }, w) ∧
      ms.Perm w.heap := by
  have hperm : (GetAllMessages w order).Perm (List.range w.heap.length) := by
    rw [← hsnd]
    exact (rangeOrder_perm order w.storage.messages).map Prod.snd
  have hlt : ∀ p ∈ GetAllMessages w order, p < w.heap.length :=
    fun p hp => List.mem_range.mp (hperm.mem_iff.mp hp)
  have henc := encodeAll_eq_filterMap w _ hlt
  refine ⟨_, ?_, henc, by simp [handleViewMessages, henc], ?_⟩
  · simpa using hperm.length_eq
  · have h2 := hperm.filterMap (fun i => w.heap[i]?)
    rwa [filterMap_range_heap] at h2

theorem trace_creations (reqs : List (CreateMessageRequest × String × Time)) (w : World)
    (hvalid : ∀ x ∈ reqs, x.1.Content ≠ "" ∧ x.1.Recipient ≠ "")
    (hfst : w.storage.messages.map Prod.fst = w.heap.map (fun m => m.ID))
    (hsnd : w.storage.messages.map Prod.snd = List.range w.heap.length)
    (hdistinct : (w.heap.map (fun m => m.ID) ++ reqs.map (fun x => x.2.1)).Nodup) :
    ∃ w1,
      trace w (reqs.map (fun x => Call.create (some x.1) x.2.1 x.2.2)) =
        some (reqs.map (fun x =>
          { code := StatusOK, body := .message (newMessage x.1 x.2.1 x.2.2) }), w1) ∧
      w1.heap = w.heap ++ reqs.map (fun x => newMessage x.1 x.2.1 x.2.2) ∧
      w1.storage.messages.map Prod.snd = List.range w1.heap.length := by
  induction reqs generalizing w with
  | nil => exact ⟨w, rfl, by simp, hsnd⟩
  | cons x reqs ih =>
    obtain ⟨hc, hr⟩ := hvalid x (List.mem_cons_self _ _)
    have hnot : x.2.1 ∉ w.storage.messages.map Prod.fst := by
      rw [hfst]
      intro hmem
      have hd := List.disjoint_of_nodup_append hdistinct
      exact hd hmem (by simp)
    have hassign := mapAssign_of_not_mem x.2.1 w.heap.length _ hnot
    have hstep := handleMessages_ok w x.1 x.2.1 x.2.2 hc hr
    rw [hassign] at hstep
    obtain ⟨w1, htr, hheap, hs1⟩ := ih
      { heap := w.heap ++ [newMessage x.1 x.2.1 x.2.2],
        storage := { messages := w.storage.messages ++ [(x.2.1, w.heap.length)] } }
      (fun y hy => hvalid y (List.mem_cons_of_mem _ hy))
      (by simp [hfst, newMessage])
      (by simp [hsnd, List.range_succ])
      (by simpa [newMessage, List.append_assoc] using hdistinct)
    refine ⟨w1, ?_, ?_, hs1⟩
    · simp only [List.map_cons, trace, step, hstep, htr]
    · simp [hheap]

/-- C9: from the empty store, after the creations of `N` valid requests whose
generated ids are pairwise distinct (each answered 200 with the message it
made), the listing, in whatever order the runtime visits the map, answers 200
with `N` records that are, up to order, exactly the `N` created messages;
`GetAllMessages` returns `N` pointers, and these are the records behind them.
On the empty store the listing answers 200 with the empty sequence. -/
theorem listing_returns_created (reqs : List (CreateMessageRequest × String × Time))
    (order : Nat)
    (hvalid : ∀ x ∈ reqs, x.1.Content ≠ "" ∧ x.1.Recipient ≠ "")
    (hdistinct : (reqs.map (fun x => x.2.1)).Nodup) :
    (∃ w ms,
      trace NewStorage (reqs.map (fun x => Call.create (some x.1) x.2.1 x.2.2)) =
        some (reqs.map (fun x =>
          { code := 200, body := .message (newMessage x.1 x.2.1 x.2.2) }), w) ∧
      (GetAllMessages w order).length = reqs.length ∧
      encodeAll w (GetAllMessages w order) = some ms ∧
      handleViewMessages w order = some ({ code := 200, body := .messages ms }, w) ∧
      ms.length = reqs.length ∧
      ms.Perm (reqs.map (fun x => newMessage x.1 x.2.1 x.2.2))) ∧
    handleViewMessages NewStorage order =
      some ({ code := 200, body := .messages [] }, NewStorage) := by
  constructor
  · obtain ⟨w, htr, hheap, hsnd⟩ := trace_creations reqs NewStorage hvalid rfl rfl
      (by simpa [NewStorage] using hdistinct)
    obtain ⟨ms, hlen, henc, hview, hperm⟩ := listing_of_linked w order hsnd
    have hheap1 : w.heap = reqs.map (fun x => newMessage x.1 x.2.1 x.2.2) := by
      simpa [NewStorage] using hheap
    rw [hheap1] at hperm
    refine ⟨w, ms, htr, ?_, henc, hview, ?_, hperm⟩
    · simpa [hheap1] using hlen
    · simpa using hperm.length_eq
  · cases order <;> rfl

theorem listing_returns_created_witness :
    ∃ w ms,
      trace NewStorage
        ([(CreateMessageRequest.mk "Hello, World!" "user1@example.com", "id-1", 1),
          (CreateMessageRequest.mk "Goodbye, World!" "user2@example.com", "id-2", 2)].map
          (fun x => Call.create (some x.1) x.2.1 x.2.2)) =
        some ([(CreateMessageRequest.mk "Hello, World!" "user1@example.com", "id-1", 1),
          (CreateMessageRequest.mk "Goodbye, World!" "user2@example.com", "id-2", 2)].map
          (fun x => { code := 200, body := .message (newMessage x.1 x.2.1 x.2.2) }), w) ∧
      (GetAllMessages w 1).length = 2 ∧
      encodeAll w (GetAllMessages w 1) = some ms ∧
      handleViewMessages w 1 = some ({ code := 200, body := .messages ms }, w) ∧
      ms.length = 2 ∧
      ms.Perm
        ([(CreateMessageRequest.mk "Hello, World!" "user1@example.com", "id-1", 1),
          (CreateMessageRequest.mk "Goodbye, World!" "user2@example.com", "id-2", 2)].map
          (fun x => newMessage x.1 x.2.1 x.2.2)) :=
  (listing_returns_created
    [(CreateMessageRequest.mk "Hello, World!" "user1@example.com", "id-1", 1),
     (CreateMessageRequest.mk "Goodbye, World!" "user2@example.com", "id-2", 2)] 1
    (by decide) (by decide)).1

/-- C10, the code at the failing input: `msg1` and then `msg2` are added to an
empty store with `AddMessage`, as in `TestHandleViewMessages`; when the `range`
loop of `GetAllMessages` visits the entry of `msg2` first, the listing and the
body of `handleViewMessages` hold `msg2` before `msg1`, so the first element is
not the first message added. -/
theorem listing_order_is_not_insertion_order :
    (AddMessage
        (World.alloc NewStorage
          { ID := "id-1", Content := "Hello, World!", Recipient := "user1@example.com",
            Status := Pending, CreatedAt := 1, ApprovedAt := none, RejectedAt := none }).2
        0).bind
      (fun w1 => AddMessage
        (World.alloc w1
          { ID := "id-2", Content := "Goodbye, World!", Recipient := "user2@example.com",
            Status := Approved, CreatedAt := 2, ApprovedAt := some 3, RejectedAt := none }).2
        1) =
      some
        { heap :=
            [{ ID := "id-1", Content := "Hello, World!", Recipient := "user1@example.com",
               Status := Pending, CreatedAt := 1, ApprovedAt := none, RejectedAt := none },
             { ID := "id-2", Content := "Goodbye, World!", Recipient := "user2@example.com",
               Status := Approved, CreatedAt := 2, ApprovedAt := some 3, RejectedAt := none }],
          storage := { messages := [("id-1", 0), ("id-2", 1)] } } ∧
    GetAllMessages
        { heap :=
            [{ ID := "id-1", Content := "Hello, World!", Recipient := "user1@example.com",
               Status := Pending, CreatedAt := 1, ApprovedAt := none, RejectedAt := none },
             { ID := "id-2", Content := "Goodbye, World!", Recipient := "user2@example.com",
               Status := Approved, CreatedAt := 2, ApprovedAt := some 3, RejectedAt := none }],
          storage := { messages := [("id-1", 0), ("id-2", 1)] } } 1 = [1, 0] ∧
    Option.map (fun x => x.1)
        (handleViewMessages
          { heap :=
              [{ ID := "id-1", Content := "Hello, World!", Recipient := "user1@example.com",
                 Status := Pending, CreatedAt := 1, ApprovedAt := none, RejectedAt := none },
               { ID := "id-2", Content := "Goodbye, World!", Recipient := "user2@example.com",
                 Status := Approved, CreatedAt := 2, ApprovedAt := some 3, RejectedAt := none }],
            storage := { messages := [("id-1", 0), ("id-2", 1)] } } 1) =
      some
        { code := 200,
          body := .messages
            [{ ID := "id-2", Content := "Goodbye, World!", Recipient := "user2@example.com",
               Status := Approved, CreatedAt := 2, ApprovedAt := some 3, RejectedAt := none },
             { ID := "id-1", Content := "Hello, World!", Recipient := "user1@example.com",
               Status := Pending, CreatedAt := 1, ApprovedAt := none, RejectedAt := none }] } := by
  decide



/-! ## The empty id -/

/-- C11: for every store and every clock value, `handleApproveMessage` and
`handleRejectMessage` called with the empty id answer 400 and leave the state
as it is.  The test of the id comes first: the answer is 400 whatever the store
holds, also when it holds a record under the empty id. -/
theorem empty_id_bad_request (w : World) (now : Time) :
    handleApproveMessage w "" now =
      some ({ code := 400, body := .error "Message ID is required" }, w) ∧
    handleRejectMessage w "" now =
      some ({ code := 400, body := .error "Message ID is required" }, w) ∧
    handleApproveMessage
        { heap := [{ ID := "", Content := "c", Recipient := "r", Status := Pending,
                     CreatedAt := 1, ApprovedAt := none, RejectedAt := none }],
          storage := { messages := [("", 0)] } } "" now =
      some ({ code := 400, body := .error "Message ID is required" },
        { heap := [{ ID := "", Content := "c", Recipient := "r", Status := Pending,
                     CreatedAt := 1, ApprovedAt := none, RejectedAt := none }],
          storage := { messages := [("", 0)] } }) := by
  refine ⟨?_, ?_, ?_⟩ <;> simp [handleApproveMessage, handleRejectMessage, StatusBadRequest]

/-! ## The store -/

theorem not_mem_keys_of_lookup_none (k : String) (l : List (String × Ptr))
    (h : mapLookup k l = none) : k ∉ l.map Prod.fst := by
  induction l with
  | nil => simp
  | cons e rest ih =>
    obtain ⟨k1, p1⟩ := e
    by_cases hk : k1 = k
    · simp [mapLookup, hk] at h
    · simp only [mapLookup, hk, if_false] at h
      simp only [List.map_cons, List.mem_cons, not_or]
      exact ⟨fun h2 => hk h2.symm, ih h⟩

theorem mapAssign_keys_of_lookup (k : String) (p q : Ptr) (l : List (String × Ptr))
    (h : mapLookup k l = some q) : (mapAssign k p l).map Prod.fst = l.map Prod.fst := by
  induction l with
  | nil => simp [mapLookup] at h
  | cons e rest ih =>
    obtain ⟨k1, p1⟩ := e
    by_cases hk : k1 = k
    · simp [mapAssign, hk]
    · simp only [mapLookup, hk, if_false] at h
      simp [mapAssign, hk, ih h]

/-- C12: for every store, every message `m` (the object behind the pointer
given to `AddMessage`) and every id `k`: after `AddMessage`, `GetMessage` on
`m.ID` finds the pointer to `m`, and `GetMessage` on any other id returns what
it returned before, pointer and record; and `GetMessage` on `NewStorage` finds
nothing for any id. -/
theorem getMessage_after_addMessage (w : World) (p : Ptr) (m : Message) (k : String)
    (hread : w.read p = some m) :
    (∃ w1, AddMessage w p = some w1 ∧
      GetMessage w1 m.ID = some p ∧ w1.read p = some m ∧ record w1 m.ID = some m ∧
      (k ≠ m.ID → GetMessage w1 k = GetMessage w k ∧ record w1 k = record w k)) ∧
    GetMessage NewStorage k = none := by
  refine ⟨⟨{ heap := w.heap,
             storage := { messages := mapAssign m.ID p w.storage.messages } },
    by simp [AddMessage, hread], ?_, hread, ?_, ?_⟩, rfl⟩
  · simp [GetMessage, mapLookup_mapAssign_self]
  · simpa [record, GetMessage, mapLookup_mapAssign_self, World.read] using hread
  · intro hk
    simp [record, GetMessage, mapLookup_mapAssign_ne _ _ _ _ hk, World.read]

theorem getMessage_after_addMessage_witness :
    (∃ w1,
      AddMessage
          { heap := [{ ID := "k", Content := "c", Recipient := "r", Status := Pending,
                       CreatedAt := 1, ApprovedAt := none, RejectedAt := none },
                     { ID := "j", Content := "d", Recipient := "s", Status := Pending,
                       CreatedAt := 2, ApprovedAt := none, RejectedAt := none }],
            storage := { messages := [("k", 0)] } } 1 = some w1 ∧
      GetMessage w1 "j" = some 1 ∧
      w1.read 1 =
        some { ID := "j", Content := "d", Recipient := "s", Status := Pending,
               CreatedAt := 2, ApprovedAt := none, RejectedAt := none } ∧
      record w1 "j" =
        some { ID := "j", Content := "d", Recipient := "s", Status := Pending,
               CreatedAt := 2, ApprovedAt := none, RejectedAt := none } ∧
      ("k" ≠ "j" →
        GetMessage w1 "k" =
          GetMessage
            { heap := [{ ID := "k", Content := "c", Recipient := "r", Status := Pending,
                         CreatedAt := 1, ApprovedAt := none, RejectedAt := none },
                       { ID := "j", Content := "d", Recipient := "s", Status := Pending,
                         CreatedAt := 2, ApprovedAt := none, RejectedAt := none }],
              storage := { messages := [("k", 0)] } } "k" ∧
        record w1 "k" =
          record
            { heap := [{ ID := "k", Content := "c", Recipient := "r", Status := Pending,
                         CreatedAt := 1, ApprovedAt := none, RejectedAt := none },
                       { ID := "j", Content := "d", Recipient := "s", Status := Pending,
                         CreatedAt := 2, ApprovedAt := none, RejectedAt := none }],
              storage := { messages := [("k", 0)] } } "k")) ∧
    GetMessage NewStorage "k" = none :=
  getMessage_after_addMessage
    { heap := [{ ID := "k", Content := "c", Recipient := "r", Status := Pending,
                 CreatedAt := 1, ApprovedAt := none, RejectedAt := none },
               { ID := "j", Content := "d", Recipient := "s", Status := Pending,
                 CreatedAt := 2, ApprovedAt := none, RejectedAt := none }],
      storage := { messages := [("k", 0)] } } 1
    { ID := "j", Content := "d", Recipient := "s", Status := Pending,
      CreatedAt := 2, ApprovedAt := none, RejectedAt := none } "k" (by decide)

/-- C13: when the store already holds a record under `m.ID`, `UpdateMessage`
with the pointer to `m` replaces the whole record: afterwards `GetMessage` on
`m.ID` finds the pointer to `m`, so the record is `m` itself; under every other
id the pointer and the record are what they were; and the keys of the map, and
so the number of records, are what they were. -/
theorem updateMessage_replaces_record (w : World) (p q : Ptr) (m : Message)
    (hread : w.read p = some m) (hheld : GetMessage w m.ID = some q) :
    ∃ w1, UpdateMessage w p = some w1 ∧
      GetMessage w1 m.ID = some p ∧ w1.read p = some m ∧ record w1 m.ID = some m ∧
      (∀ k, k ≠ m.ID → GetMessage w1 k = GetMessage w k ∧ record w1 k = record w k) ∧
      keys w1 = keys w ∧
      w1.storage.messages.length = w.storage.messages.length := by
  have hkeys := mapAssign_keys_of_lookup m.ID p q w.storage.messages hheld
  refine ⟨{ heap := w.heap,
            storage := { messages := mapAssign m.ID p w.storage.messages } },
    by simp [UpdateMessage, hread], ?_, hread, ?_, ?_, hkeys, ?_⟩
  · simp [GetMessage, mapLookup_mapAssign_self]
  · simpa [record, GetMessage, mapLookup_mapAssign_self, World.read] using hread
  · intro k hk
    simp [record, GetMessage, mapLookup_mapAssign_ne _ _ _ _ hk, World.read]
  · have h := congrArg List.length hkeys
    simpa using h

theorem updateMessage_replaces_record_witness :
    ∃ w1,
      UpdateMessage
          { heap := [{ ID := "k", Content := "c", Recipient := "r", Status := Pending,
                       CreatedAt := 1, ApprovedAt := none, RejectedAt := none },
                     { ID := "k", Content := "d", Recipient := "s", Status := Approved,
                       CreatedAt := 2, ApprovedAt := some 3, RejectedAt := none }],
            storage := { messages := [("k", 0)] } } 1 = some w1 ∧
      GetMessage w1 "k" = some 1 ∧
      w1.read 1 =
        some { ID := "k", Content := "d", Recipient := "s", Status := Approved,
               CreatedAt := 2, ApprovedAt := some 3, RejectedAt := none } ∧
      record w1 "k" =
        some { ID := "k", Content := "d", Recipient := "s", Status := Approved,
               CreatedAt := 2, ApprovedAt := some 3, RejectedAt := none } :=
  have h := updateMessage_replaces_record
    { heap := [{ ID := "k", Content := "c", Recipient := "r", Status := Pending,
                 CreatedAt := 1, ApprovedAt := none, RejectedAt := none },
               { ID := "k", Content := "d", Recipient := "s", Status := Approved,
                 CreatedAt := 2, ApprovedAt := some 3, RejectedAt := none }],
      storage := { messages := [("k", 0)] } } 1 0
    { ID := "k", Content := "d", Recipient := "s", Status := Approved,
      CreatedAt := 2, ApprovedAt := some 3, RejectedAt := none }
    (by decide) (by decide)
  h.imp (fun _ hw => ⟨hw.1, hw.2.1, hw.2.2.1, hw.2.2.2.1⟩)



/-! ## Create, approve, approve again -/

/-- C14: for every store, every non-empty content and recipient and every
non-empty generated id (whether or not the store already holds it): the
creation answers 200 with a `Pending` message under that id; approving the
returned id answers 200 with `Status = Approved` and `ApprovedAt` present;
approving the same id once more answers 409 and leaves the state, and so the
record, as the first approval left it. -/
theorem create_approve_twice (w : World) (content recipient newID : String)
    (now1 now2 now3 : Time) (hc : content ≠ "") (hr : recipient ≠ "")
    (hid : newID ≠ "") :
    ∃ w1 w2 m1 m2,
      handleMessages w (some { Content := content, Recipient := recipient }) newID now1 =
        some ({ code := 200, body := .message m1 }, w1) ∧
      m1.ID = newID ∧ m1.Status = Pending ∧
      handleApproveMessage w1 m1.ID now2 =
        some ({ code := 200, body := .message m2 }, w2) ∧
      m2.Status = Approved ∧ m2.ApprovedAt = some now2 ∧ record w2 newID = some m2 ∧
      ∃ r, handleApproveMessage w2 m1.ID now3 = some (r, w2) ∧ r.code = 409 := by
  have hcreate := handleMessages_ok w ⟨content, recipient⟩ newID now1 hc hr
  have hget1 : GetMessage
      { heap := w.heap ++ [newMessage ⟨content, recipient⟩ newID now1],
        storage := { messages := mapAssign newID w.heap.length w.storage.messages } }
      newID = some w.heap.length := by
    simp [GetMessage, mapLookup_mapAssign_self]
  have hread1 : World.read
      { heap := w.heap ++ [newMessage ⟨content, recipient⟩ newID now1],
        storage := { messages := mapAssign newID w.heap.length w.storage.messages } }
      w.heap.length = some (newMessage ⟨content, recipient⟩ newID now1) := by
    simp [World.read]
  have happrove := handleApproveMessage_ok _ newID now2 _ _ hid hget1 hread1 rfl
  refine ⟨_, _, newMessage ⟨content, recipient⟩ newID now1,
    { newMessage ⟨content, recipient⟩ newID now1 with
      Status := Approved, ApprovedAt := some now2 },
    hcreate, rfl, rfl, happrove, rfl, rfl, ?_, ?_⟩
  · simp [record, GetMessage, newMessage, mapLookup_mapAssign_self, World.read]
  · refine ⟨_, handleApproveMessage_conflict _ newID now3 w.heap.length
      { newMessage ⟨content, recipient⟩ newID now1 with
        Status := Approved, ApprovedAt := some now2 } hid ?_ ?_
      (by show Approved ≠ Pending; decide), rfl⟩
    · simp [GetMessage, newMessage, mapLookup_mapAssign_self]
    · simp [World.read]

theorem create_approve_twice_witness :
    ∃ w1 w2 m1 m2,
      handleMessages NewStorage (some { Content := "Hi", Recipient := "a@b.com" }) "id-1" 1 =
        some ({ code := 200, body := .message m1 }, w1) ∧
      m1.ID = "id-1" ∧ m1.Status = Pending ∧
      handleApproveMessage w1 m1.ID 2 =
        some ({ code := 200, body := .message m2 }, w2) ∧
      m2.Status = Approved ∧ m2.ApprovedAt = some 2 ∧ record w2 "id-1" = some m2 ∧
      ∃ r, handleApproveMessage w2 m1.ID 3 = some (r, w2) ∧ r.code = 409 :=
  create_approve_twice NewStorage "Hi" "a@b.com" "id-1" 1 2 3
    (by decide) (by decide) (by decide)

/-! ## `AddMessage` and `UpdateMessage` -/

/-- C19: `AddMessage` and `UpdateMessage` are one and the same operation: on
every store and every pointer they give the same resulting state.  So
`AddMessage` for an id the store already holds replaces the record and leaves
the keys, and their number, as they were; a creation whose generated id is
already held replaces the old record, whatever its status, with the new
`Pending` one; and `UpdateMessage` for an id the store does not hold makes a
new entry for it. -/
theorem addMessage_is_updateMessage :
    (∀ (w : World) (p : Ptr), AddMessage w p = UpdateMessage w p) ∧
    (∀ (w : World) (p q : Ptr) (m : Message),
      w.read p = some m → GetMessage w m.ID = some q →
      ∃ w1, AddMessage w p = some w1 ∧ record w1 m.ID = some m ∧ keys w1 = keys w ∧
        w1.storage.messages.length = w.storage.messages.length) ∧
    (∀ (w : World) (req : CreateMessageRequest) (newID : String) (now : Time)
        (old : Message),
      req.Content ≠ "" → req.Recipient ≠ "" → record w newID = some old →
      ∃ w1, handleMessages w (some req) newID now =
          some ({ code := 200, body := .message (newMessage req newID now) }, w1) ∧
        record w1 newID = some (newMessage req newID now) ∧ keys w1 = keys w) ∧
    (∀ (w : World) (p : Ptr) (m : Message),
      w.read p = some m → GetMessage w m.ID = none →
      ∃ w1, UpdateMessage w p = some w1 ∧ GetMessage w1 m.ID = some p ∧
        record w1 m.ID = some m ∧ keys w1 = keys w ++ [m.ID] ∧
        w1.storage.messages.length = w.storage.messages.length + 1) := by
  refine ⟨fun _ _ => rfl, ?_, ?_, ?_⟩
  · intro w p q m hread hheld
    have hkeys := mapAssign_keys_of_lookup m.ID p q w.storage.messages hheld
    refine ⟨{ heap := w.heap,
              storage := { messages := mapAssign m.ID p w.storage.messages } },
      by simp [AddMessage, hread], ?_, hkeys, ?_⟩
    · simpa [record, GetMessage, mapLookup_mapAssign_self, World.read] using hread
    · have h := congrArg List.length hkeys
      simpa using h
  · intro w req newID now old hc hr hold
    have hheld : ∃ q, mapLookup newID w.storage.messages = some q := by
      rcases Option.eq_none_or_eq_some (mapLookup newID w.storage.messages) with h | h
      · simp [record, GetMessage, h] at hold
      · exact h
    obtain ⟨q, hq⟩ := hheld
    refine ⟨_, handleMessages_ok w req newID now hc hr, ?_,
      mapAssign_keys_of_lookup newID w.heap.length q w.storage.messages hq⟩
    simp [record, GetMessage, mapLookup_mapAssign_self, World.read]
  · intro w p m hread hnone
    have hnot := not_mem_keys_of_lookup_none m.ID w.storage.messages hnone
    have hassign := mapAssign_of_not_mem m.ID p w.storage.messages hnot
    refine ⟨{ heap := w.heap,
              storage := { messages := mapAssign m.ID p w.storage.messages } },
      by simp [UpdateMessage, hread], ?_, ?_, ?_, ?_⟩
    · simp [GetMessage, mapLookup_mapAssign_self]
    · simpa [record, GetMessage, mapLookup_mapAssign_self, World.read] using hread
    · simp [keys, hassign]
    · simp [hassign]

theorem addMessage_is_updateMessage_witness :
    ∃ w1,
      handleMessages
          { heap := [{ ID := "k", Content := "c", Recipient := "r", Status := Approved,
                       CreatedAt := 1, ApprovedAt := some 2, RejectedAt := none }],
            storage := { messages := [("k", 0)] } }
          (some { Content := "Hi", Recipient := "a@b.com" }) "k" 7 =
        some ({ code := 200,
                body := .message (newMessage { Content := "Hi", Recipient := "a@b.com" } "k" 7) },
          w1) ∧
      record w1 "k" = some (newMessage { Content := "Hi", Recipient := "a@b.com" } "k" 7) ∧
      keys w1 =
        keys
          { heap := [{ ID := "k", Content := "c", Recipient := "r", Status := Approved,
                       CreatedAt := 1, ApprovedAt := some 2, RejectedAt := none }],
            storage := { messages := [("k", 0)] } } :=
  addMessage_is_updateMessage.2.2.1
    { heap := [{ ID := "k", Content := "c", Recipient := "r", Status := Approved,
                 CreatedAt := 1, ApprovedAt := some 2, RejectedAt := none }],
      storage := { messages := [("k", 0)] } }
    { Content := "Hi", Recipient := "a@b.com" } "k" 7
    { ID := "k", Content := "c", Recipient := "r", Status := Approved,
      CreatedAt := 1, ApprovedAt := some 2, RejectedAt := none }
    (by decide) (by decide) (by decide)



/-! ## What a handler call can do to the state -/

theorem handleApproveMessage_result (w w1 : World) (id : String) (now : Time)
    (r : Response) (h : handleApproveMessage w id now = some (r, w1)) :
    (w1 = w ∧ r.code ≠ 200) ∨
    ∃ p m, id ≠ "" ∧ GetMessage w id = some p ∧ w.read p = some m ∧ m.Status = Pending := by
  by_cases hid : id = ""
  · simp only [handleApproveMessage, hid, if_true, Option.some.injEq, Prod.mk.injEq] at h
    exact Or.inl ⟨h.2.symm, by rw [← h.1]; decide⟩
  · rcases Option.eq_none_or_eq_some (GetMessage w id) with hget | ⟨p, hget⟩
    · simp only [handleApproveMessage, hid, if_false, hget, Option.some.injEq,
        Prod.mk.injEq] at h
      exact Or.inl ⟨h.2.symm, by rw [← h.1]; decide⟩
    · rcases Option.eq_none_or_eq_some (w.read p) with hread | ⟨m, hread⟩
      · simp [handleApproveMessage, hid, hget, hread] at h
      · by_cases hs : m.Status = Pending
        · exact Or.inr ⟨p, m, hid, hget, hread, hs⟩
        · rw [handleApproveMessage_conflict w id now p m hid hget hread hs] at h
          simp only [Option.some.injEq, Prod.mk.injEq] at h
          exact Or.inl ⟨h.2.symm, by rw [← h.1]; decide⟩

theorem handleRejectMessage_result (w w1 : World) (id : String) (now : Time)
    (r : Response) (h : handleRejectMessage w id now = some (r, w1)) :
    (w1 = w ∧ r.code ≠ 200) ∨
    ∃ p m, id ≠ "" ∧ GetMessage w id = some p ∧ w.read p = some m ∧ m.Status = Pending := by
  by_cases hid : id = ""
  · simp only [handleRejectMessage, hid, if_true, Option.some.injEq, Prod.mk.injEq] at h
    exact Or.inl ⟨h.2.symm, by rw [← h.1]; decide⟩
  · rcases Option.eq_none_or_eq_some (GetMessage w id) with hget | ⟨p, hget⟩
    · simp only [handleRejectMessage, hid, if_false, hget, Option.some.injEq,
        Prod.mk.injEq] at h
      exact Or.inl ⟨h.2.symm, by rw [← h.1]; decide⟩
    · rcases Option.eq_none_or_eq_some (w.read p) with hread | ⟨m, hread⟩
      · simp [handleRejectMessage, hid, hget, hread] at h
      · by_cases hs : m.Status = Pending
        · exact Or.inr ⟨p, m, hid, hget, hread, hs⟩
        · rw [handleRejectMessage_conflict w id now p m hid hget hread hs] at h
          simp only [Option.some.injEq, Prod.mk.injEq] at h
          exact Or.inl ⟨h.2.symm, by rw [← h.1]; decide⟩

theorem keyed_lookup (w : World) (id : String) (p : Ptr) (h : Keyed w)
    (hget : GetMessage w id = some p) : ∃ m, w.read p = some m ∧ m.ID = id := by
  have h1 := h (id, p) (mem_of_mapLookup id p _ hget)
  rcases Option.eq_none_or_eq_some (w.read p) with hread | ⟨m, hread⟩
  · simp [hread] at h1
  · simp only [hread, Option.map_some', Option.some.injEq] at h1
    exact ⟨m, hread, h1⟩

theorem record_set_target (w : World) (p : Ptr) (m m1 : Message) (id : String)
    (hget : GetMessage w id = some p) (hread : w.read p = some m) :
    record { heap := w.heap.set p m1,
             storage := { messages := mapAssign m.ID p w.storage.messages } } id =
      some m1 := by
  have hlt := read_lt w p m hread
  have hg : mapLookup id (mapAssign m.ID p w.storage.messages) = some p := by
    by_cases hid : id = m.ID
    · rw [hid]
      exact mapLookup_mapAssign_self _ _ _
    · rw [mapLookup_mapAssign_ne _ _ _ _ hid]
      exact hget
  simp [record, GetMessage, hg, World.read, hlt]

theorem record_set_keyed (w : World) (p : Ptr) (m m1 : Message) (h : Keyed w)
    (hread : w.read p = some m) (k : String) (hk : k ≠ m.ID) :
    record { heap := w.heap.set p m1,
             storage := { messages := mapAssign m.ID p w.storage.messages } } k =
      record w k := by
  simp only [record, GetMessage, mapLookup_mapAssign_ne _ _ _ _ hk]
  rcases Option.eq_none_or_eq_some (mapLookup k w.storage.messages) with hg | ⟨q, hg⟩
  · simp [hg]
  · obtain ⟨m2, hread2, hid2⟩ := keyed_lookup w k q h hg
    have hne : p ≠ q := by
      intro hpq
      subst hpq
      rw [hread] at hread2
      cases hread2
      exact hk hid2.symm
    simp [hg, World.read, List.getElem?_set_ne hne]

/-! ## The frame of approval and rejection -/

/-- C15, the claim as stated fails: the store holds one `Pending` message under
the two keys `"a"` and `"b"` (the same pointer twice); `handleApproveMessage`
on `"a"` answers 200, and the record under the other id `"b"` is no longer what
it was. -/
theorem approve_changes_aliased_record :
    Option.map (fun x => x.1.code)
        (handleApproveMessage
          { heap := [{ ID := "a", Content := "c", Recipient := "r", Status := Pending,
                       CreatedAt := 1, ApprovedAt := none, RejectedAt := none }],
            storage := { messages := [("a", 0), ("b", 0)] } } "a" 5) = some 200 ∧
    record
        { heap := [{ ID := "a", Content := "c", Recipient := "r", Status := Pending,
                     CreatedAt := 1, ApprovedAt := none, RejectedAt := none }],
          storage := { messages := [("a", 0), ("b", 0)] } } "b" =
      some { ID := "a", Content := "c", Recipient := "r", Status := Pending,
             CreatedAt := 1, ApprovedAt := none, RejectedAt := none } ∧
    Option.bind
        (handleApproveMessage
          { heap := [{ ID := "a", Content := "c", Recipient := "r", Status := Pending,
                       CreatedAt := 1, ApprovedAt := none, RejectedAt := none }],
            storage := { messages := [("a", 0), ("b", 0)] } } "a" 5)
        (fun x => record x.2 "b") =
      some { ID := "a", Content := "c", Recipient := "r", Status := Approved,
             CreatedAt := 1, ApprovedAt := some 5, RejectedAt := none } := by
  decide

/-- C15, amended: for every store, every id and every clock value, a call of
`handleApproveMessage` or `handleRejectMessage` that answers 200 leaves the
`ID`, `Content`, `Recipient` and `CreatedAt` of the target message as they were;
and when every record of the store is stored under the key equal to its own
`ID`, it leaves the record under every other id as it was. -/
theorem approve_reject_frame (w w1 : World) (id : String) (now : Time) (r : Response)
    (hcall : handleApproveMessage w id now = some (r, w1) ∨
      handleRejectMessage w id now = some (r, w1))
    (hcode : r.code = 200) :
    (∃ m m1, record w id = some m ∧ record w1 id = some m1 ∧ r.body = .message m1 ∧
      m1.ID = m.ID ∧ m1.Content = m.Content ∧ m1.Recipient = m.Recipient ∧
      m1.CreatedAt = m.CreatedAt) ∧
    (Keyed w → ∀ k, k ≠ id → record w1 k = record w k) := by
  rcases hcall with hcall | hcall
  · rcases handleApproveMessage_result w w1 id now r hcall with
      ⟨_, hne⟩ | ⟨p, m, hid, hget, hread, hs⟩
    · exact absurd hcode hne
    · rw [handleApproveMessage_ok w id now p m hid hget hread hs] at hcall
      simp only [Option.some.injEq, Prod.mk.injEq] at hcall
      obtain ⟨hr, hw⟩ := hcall
      subst hr
      subst hw
      refine ⟨⟨m, _, by simp [record, hget, hread],
        record_set_target w p m _ id hget hread, rfl, rfl, rfl, rfl, rfl⟩, ?_⟩
      intro hkeyed k hk
      obtain ⟨m2, hread2, hid2⟩ := keyed_lookup w id p hkeyed hget
      rw [hread] at hread2
      cases hread2
      exact record_set_keyed w p m _ hkeyed hread k (by rw [hid2]; exact hk)
  · rcases handleRejectMessage_result w w1 id now r hcall with
      ⟨_, hne⟩ | ⟨p, m, hid, hget, hread, hs⟩
    · exact absurd hcode hne
    · rw [handleRejectMessage_ok w id now p m hid hget hread hs] at hcall
      simp only [Option.some.injEq, Prod.mk.injEq] at hcall
      obtain ⟨hr, hw⟩ := hcall
      subst hr
      subst hw
      refine ⟨⟨m, _, by simp [record, hget, hread],
        record_set_target w p m _ id hget hread, rfl, rfl, rfl, rfl, rfl⟩, ?_⟩
      intro hkeyed k hk
      obtain ⟨m2, hread2, hid2⟩ := keyed_lookup w id p hkeyed hget
      rw [hread] at hread2
      cases hread2
      exact record_set_keyed w p m _ hkeyed hread k (by rw [hid2]; exact hk)



theorem approve_reject_frame_witness :
    (∃ m m1,
      record
          { heap := [{ ID := "k", Content := "c", Recipient := "r", Status := Pending,
                       CreatedAt := 1, ApprovedAt := none, RejectedAt := none },
                     { ID := "j", Content := "d", Recipient := "s", Status := Pending,
                       CreatedAt := 2, ApprovedAt := none, RejectedAt := none }],
            storage := { messages := [("k", 0), ("j", 1)] } } "k" = some m ∧
      record
          { heap := [{ ID := "k", Content := "c", Recipient := "r", Status := Approved,
                       CreatedAt := 1, ApprovedAt := some 9, RejectedAt := none },
                     { ID := "j", Content := "d", Recipient := "s", Status := Pending,
                       CreatedAt := 2, ApprovedAt := none, RejectedAt := none }],
            storage := { messages := [("k", 0), ("j", 1)] } } "k" = some m1 ∧
      Body.message
          { ID := "k", Content := "c", Recipient := "r", Status := Approved,
            CreatedAt := 1, ApprovedAt := some 9, RejectedAt := none } = .message m1 ∧
      m1.ID = m.ID ∧ m1.Content = m.Content ∧ m1.Recipient = m.Recipient ∧
      m1.CreatedAt = m.CreatedAt) ∧
    ∀ k, k ≠ "k" →
      record
          { heap := [{ ID := "k", Content := "c", Recipient := "r", Status := Approved,
                       CreatedAt := 1, ApprovedAt := some 9, RejectedAt := none },
                     { ID := "j", Content := "d", Recipient := "s", Status := Pending,
                       CreatedAt := 2, ApprovedAt := none, RejectedAt := none }],
            storage := { messages := [("k", 0), ("j", 1)] } } k =
        record
          { heap := [{ ID := "k", Content := "c", Recipient := "r", Status := Pending,
                       CreatedAt := 1, ApprovedAt := none, RejectedAt := none },
                     { ID := "j", Content := "d", Recipient := "s", Status := Pending,
                       CreatedAt := 2, ApprovedAt := none, RejectedAt := none }],
            storage := { messages := [("k", 0), ("j", 1)] } } k :=
  have h := approve_reject_frame
    { heap := [{ ID := "k", Content := "c", Recipient := "r", Status := Pending,
                 CreatedAt := 1, ApprovedAt := none, RejectedAt := none },
               { ID := "j", Content := "d", Recipient := "s", Status := Pending,
                 CreatedAt := 2, ApprovedAt := none, RejectedAt := none }],
      storage := { messages := [("k", 0), ("j", 1)] } }
    { heap := [{ ID := "k", Content := "c", Recipient := "r", Status := Approved,
                 CreatedAt := 1, ApprovedAt := some 9, RejectedAt := none },
               { ID := "j", Content := "d", Recipient := "s", Status := Pending,
                 CreatedAt := 2, ApprovedAt := none, RejectedAt := none }],
      storage := { messages := [("k", 0), ("j", 1)] } }
    "k" 9
    { code := 200,
      body := .message
        { ID := "k", Content := "c", Recipient := "r", Status := Approved,
          CreatedAt := 1, ApprovedAt := some 9, RejectedAt := none } }
    (Or.inl (by decide)) (by decide)
  ⟨h.1, h.2 (by unfold Keyed; decide)⟩

/-! ## No record is removed -/

theorem handleMessages_result (w w1 : World) (decoded : Option CreateMessageRequest)
    (newID : String) (now : Time) (r : Response)
    (h : handleMessages w decoded newID now = some (r, w1)) :
    (w1 = w ∧ r.code ≠ 200) ∨
    ∃ req, decoded = some req ∧ req.Content ≠ "" ∧ req.Recipient ≠ "" := by
  cases decoded with
  | none =>
    simp only [handleMessages, Option.some.injEq, Prod.mk.injEq] at h
    exact Or.inl ⟨h.2.symm, by rw [← h.1]; decide⟩
  | some req =>
    by_cases hbad : req.Content = "" ∨ req.Recipient = ""
    · simp only [handleMessages, hbad, if_true, Option.some.injEq, Prod.mk.injEq] at h
      exact Or.inl ⟨h.2.symm, by rw [← h.1]; decide⟩
    · exact Or.inr ⟨req, rfl, fun h2 => hbad (Or.inl h2), fun h3 => hbad (Or.inr h3)⟩

theorem lookup_mapAssign_ne_none (k j : String) (p : Ptr) (l : List (String × Ptr)) :
    mapLookup j (mapAssign k p l) ≠ none ↔ (j = k ∨ mapLookup j l ≠ none) := by
  by_cases hjk : j = k
  · subst hjk
    simp [mapLookup_mapAssign_self]
  · simp [mapLookup_mapAssign_ne _ _ _ _ hjk, hjk]

theorem allocated_of_keyed (w : World) (h : Keyed w) : Allocated w := by
  intro e he
  have h1 := h e he
  rcases Option.eq_none_or_eq_some (w.read e.2) with hread | ⟨m, hread⟩
  · simp [hread] at h1
  · simp [hread]

theorem allocated_create (w : World) (m0 : Message) (k : String) (h : Allocated w) :
    Allocated { heap := w.heap ++ [m0],
                storage := { messages := mapAssign k w.heap.length w.storage.messages } } := by
  intro e he
  rcases mem_mapAssign _ _ _ _ he with he | he
  · subst he
    simp [World.read]
  · have h1 := h e he
    rcases Option.eq_none_or_eq_some (w.read e.2) with hread | ⟨m, hread⟩
    · simp [hread] at h1
    · have hlt := read_lt w e.2 m hread
      simp [World.read, List.getElem?_append_left hlt, List.getElem?_eq_getElem hlt]

theorem allocated_set (w : World) (p : Ptr) (m m1 : Message) (k : String)
    (h : Allocated w) (hread : w.read p = some m) :
    Allocated { heap := w.heap.set p m1,
                storage := { messages := mapAssign k p w.storage.messages } } := by
  have hlt := read_lt w p m hread
  intro e he
  have hlt2 : e.2 < w.heap.length := by
    rcases mem_mapAssign _ _ _ _ he with he | he
    · subst he
      exact hlt
    · have h1 := h e he
      rcases Option.eq_none_or_eq_some (w.read e.2) with hr | ⟨m2, hr⟩
      · simp [hr] at h1
      · exact read_lt w e.2 m2 hr
  have hlt3 : e.2 < (w.heap.set p m1).length := by simpa using hlt2
  simp [World.read, List.getElem?_eq_getElem hlt3]

theorem handleViewMessages_allocated (w : World) (order : Nat) (h : Allocated w) :
    ∃ ms, handleViewMessages w order = some ({ code := StatusOK, body := .messages ms }, w) := by
  have hall : ∀ p ∈ GetAllMessages w order, ∃ m, w.read p = some m := by
    intro p hp
    obtain ⟨e, he, hep⟩ := List.mem_map.mp hp
    have he1 : e ∈ w.storage.messages := (rangeOrder_perm order _).mem_iff.mp he
    have h1 := h e he1
    rw [hep] at h1
    exact Option.isSome_iff_exists.mp h1
  obtain ⟨ms, hms⟩ := encodeAll_some w _ hall
  exact ⟨ms, by simp [handleViewMessages, hms]⟩

/-- C17, the claim as stated fails: the store holds, under the key `"a"`, a
`Pending` message whose `ID` is `"b"`, and no record under `"b"`;
`handleApproveMessage` on `"a"` answers 200 and `UpdateMessage` stores the
message under its `ID`, so the id `"b"` has a record after the call and had
none before it. -/
theorem approve_adds_key_of_misfiled_message :
    Option.map (fun x => x.1.code)
        (handleApproveMessage
          { heap := [{ ID := "b", Content := "c", Recipient := "r", Status := Pending,
                       CreatedAt := 1, ApprovedAt := none, RejectedAt := none }],
            storage := { messages := [("a", 0)] } } "a" 5) = some 200 ∧
    GetMessage
        { heap := [{ ID := "b", Content := "c", Recipient := "r", Status := Pending,
                     CreatedAt := 1, ApprovedAt := none, RejectedAt := none }],
          storage := { messages := [("a", 0)] } } "b" = none ∧
    Option.map (fun x => (GetMessage x.2 "b", keys x.2))
        (handleApproveMessage
          { heap := [{ ID := "b", Content := "c", Recipient := "r", Status := Pending,
                       CreatedAt := 1, ApprovedAt := none, RejectedAt := none }],
            storage := { messages := [("a", 0)] } } "a" 5) =
      some (some 0, ["a", "b"]) := by
  decide



/-- C17, amended: for every store and every call of the creation, approve,
reject or listing handler, the handler returns and every id that has a record
before the call has one after it; the listing leaves the state as it is; a
creation answered 200 adds exactly the generated id to the stored ids, and one
answered otherwise leaves the state as it is; and approve and reject keep the
stored ids exactly the same when every record of the store is stored under the
key equal to its own `ID`. -/
theorem handlers_remove_no_record (w : World) (c : Call) (hw : Allocated w) :
    ∃ r w1, step w c = some (r, w1) ∧ Allocated w1 ∧
      (∀ k, GetMessage w k ≠ none → GetMessage w1 k ≠ none) ∧
      (∀ order, c = .view order → w1 = w) ∧
      (∀ decoded newID now, c = .create decoded newID now →
        (r.code = 200 →
          ∀ k, GetMessage w1 k ≠ none ↔ (k = newID ∨ GetMessage w k ≠ none)) ∧
        (r.code ≠ 200 → w1 = w)) ∧
      (Keyed w → ∀ id now, (c = .approve id now ∨ c = .reject id now) →
        ∀ k, GetMessage w1 k ≠ none ↔ GetMessage w k ≠ none) := by
  have hset : ∀ (id : String) (p : Ptr) (m m1 : Message),
      GetMessage w id = some p → w.read p = some m →
      Allocated { heap := w.heap.set p m1,
                  storage := { messages := mapAssign m.ID p w.storage.messages } } ∧
      (∀ k, GetMessage w k ≠ none →
        GetMessage { heap := w.heap.set p m1,
                     storage := { messages := mapAssign m.ID p w.storage.messages } } k ≠
          none) ∧
      (Keyed w → ∀ k,
        GetMessage { heap := w.heap.set p m1,
                     storage := { messages := mapAssign m.ID p w.storage.messages } } k ≠
          none ↔ GetMessage w k ≠ none) := by
    intro id p m m1 hget hread
    refine ⟨allocated_set w p m m1 m.ID hw hread, ?_, ?_⟩
    · intro k hk
      exact (lookup_mapAssign_ne_none m.ID k p w.storage.messages).mpr (Or.inr hk)
    · intro hkeyed k
      obtain ⟨m2, hread2, hid2⟩ := keyed_lookup w id p hkeyed hget
      rw [hread] at hread2
      cases hread2
      constructor
      · intro hk
        rcases (lookup_mapAssign_ne_none m.ID k p w.storage.messages).mp hk with h1 | h1
        · rw [h1, hid2]
          simp [hget]
        · exact h1
      · intro hk
        exact (lookup_mapAssign_ne_none m.ID k p w.storage.messages).mpr (Or.inr hk)
  cases c with
  | create decoded newID now =>
    rcases handleMessages_cases w decoded newID now with ⟨r, hr, _⟩ | ⟨req, hd, hc, hrc, _⟩
    · refine ⟨r, w, hr, hw, fun _ h => h, fun _ _ => rfl, ?_, ?_⟩
      · intro d n t hcd
        rcases handleMessages_result w w decoded newID now r hr with ⟨_, hne⟩ | ⟨req, hd, hc, hrc⟩
        · exact ⟨fun h200 => absurd h200 hne, fun _ => rfl⟩
        · subst hd
          rw [handleMessages_ok w req newID now hc hrc] at hr
          simp only [Option.some.injEq, Prod.mk.injEq] at hr
          have hheap := congrArg World.heap hr.2
          simp at hheap
      · intro _ id t hcd
        rcases hcd with hcd | hcd <;> cases hcd
    · subst hd
      refine ⟨_, _, handleMessages_ok w req newID now hc hrc,
        allocated_create w _ newID hw, ?_, ?_, ?_, ?_⟩
      · intro k hk
        exact (lookup_mapAssign_ne_none newID k _ w.storage.messages).mpr (Or.inr hk)
      · intro order hcv
        cases hcv
      · intro d n t hcd
        cases hcd
        refine ⟨fun _ k => lookup_mapAssign_ne_none newID k _ w.storage.messages, ?_⟩
        intro hne
        exact absurd rfl hne
      · intro _ id t hcd
        rcases hcd with hcd | hcd <;> cases hcd
  | approve id now =>
    rcases Option.eq_none_or_eq_some (handleApproveMessage w id now) with hnone | ⟨⟨r, w1⟩, hsome⟩
    · exfalso
      by_cases hid : id = ""
      · simp [handleApproveMessage, hid] at hnone
      · rcases Option.eq_none_or_eq_some (GetMessage w id) with hget | ⟨p, hget⟩
        · simp [handleApproveMessage, hid, hget] at hnone
        · have h1 := hw (id, p) (mem_of_mapLookup id p _ hget)
          obtain ⟨m, hread⟩ := Option.isSome_iff_exists.mp h1
          by_cases hs : m.Status = Pending
          · rw [handleApproveMessage_ok w id now p m hid hget hread hs] at hnone
            cases hnone
          · rw [handleApproveMessage_conflict w id now p m hid hget hread hs] at hnone
            cases hnone
    · rcases handleApproveMessage_result w w1 id now r hsome with
        ⟨hsame, _⟩ | ⟨p, m, hid, hget, hread, hs⟩
      · subst hsame
        refine ⟨r, w1, hsome, hw, fun _ h => h, fun _ _ => rfl, ?_, fun _ _ _ _ _ => Iff.rfl⟩
        intro d n t hcd
        cases hcd
      · have hok := handleApproveMessage_ok w id now p m hid hget hread hs
        obtain ⟨ha, hkeep, hkeyed⟩ := hset id p m
          { m with Status := Approved, ApprovedAt := some now } hget hread
        refine ⟨_, _, hok, ha, hkeep, ?_, ?_, fun hk _ _ _ => hkeyed hk⟩
        · intro order hcv
          cases hcv
        · intro d n t hcd
          cases hcd
  | reject id now =>
    rcases Option.eq_none_or_eq_some (handleRejectMessage w id now) with hnone | ⟨⟨r, w1⟩, hsome⟩
    · exfalso
      by_cases hid : id = ""
      · simp [handleRejectMessage, hid] at hnone
      · rcases Option.eq_none_or_eq_some (GetMessage w id) with hget | ⟨p, hget⟩
        · simp [handleRejectMessage, hid, hget] at hnone
        · have h1 := hw (id, p) (mem_of_mapLookup id p _ hget)
          obtain ⟨m, hread⟩ := Option.isSome_iff_exists.mp h1
          by_cases hs : m.Status = Pending
          · rw [handleRejectMessage_ok w id now p m hid hget hread hs] at hnone
            cases hnone
          · rw [handleRejectMessage_conflict w id now p m hid hget hread hs] at hnone
            cases hnone
    · rcases handleRejectMessage_result w w1 id now r hsome with
        ⟨hsame, _⟩ | ⟨p, m, hid, hget, hread, hs⟩
      · subst hsame
        refine ⟨r, w1, hsome, hw, fun _ h => h, fun _ _ => rfl, ?_, fun _ _ _ _ _ => Iff.rfl⟩
        intro d n t hcd
        cases hcd
      · have hok := handleRejectMessage_ok w id now p m hid hget hread hs
        obtain ⟨ha, hkeep, hkeyed⟩ := hset id p m
          { m with Status := Rejected, RejectedAt := some now } hget hread
        refine ⟨_, _, hok, ha, hkeep, ?_, ?_, fun hk _ _ _ => hkeyed hk⟩
        · intro order hcv
          cases hcv
        · intro d n t hcd
          cases hcd
  | view order =>
    obtain ⟨ms, hms⟩ := handleViewMessages_allocated w order hw
    refine ⟨_, w, hms, hw, fun _ h => h, fun _ _ => rfl, ?_, ?_⟩
    · intro d n t hcd
      cases hcd
    · intro _ id t hcd
      rcases hcd with hcd | hcd <;> cases hcd

theorem handlers_remove_no_record_witness :
    ∃ r w1,
      step
          { heap := [{ ID := "k", Content := "c", Recipient := "r", Status := Pending,
                       CreatedAt := 1, ApprovedAt := none, RejectedAt := none }],
            storage := { messages := [("k", 0)] } } (Call.approve "k" 9) = some (r, w1) ∧
      ∀ k,
        GetMessage
            { heap := [{ ID := "k", Content := "c", Recipient := "r", Status := Pending,
                         CreatedAt := 1, ApprovedAt := none, RejectedAt := none }],
              storage := { messages := [("k", 0)] } } k ≠ none ↔
          GetMessage w1 k ≠ none :=
  have h := handlers_remove_no_record
    { heap := [{ ID := "k", Content := "c", Recipient := "r", Status := Pending,
                 CreatedAt := 1, ApprovedAt := none, RejectedAt := none }],
      storage := { messages := [("k", 0)] } } (Call.approve "k" 9)
    (by unfold Allocated; decide)
  h.imp (fun _ h1 => h1.imp (fun _ h2 =>
    ⟨h2.1, fun k => (h2.2.2.2.2.2 (by unfold Keyed; decide) "k" 9 (Or.inl rfl) k).symm⟩))

/-! ## Every stored message is well formed -/

theorem mapAssign_keys_nodup (k : String) (p : Ptr) (l : List (String × Ptr))
    (h : (l.map Prod.fst).Nodup) : ((mapAssign k p l).map Prod.fst).Nodup := by
  rcases Option.eq_none_or_eq_some (mapLookup k l) with hnone | ⟨q, hsome⟩
  · have hnot := not_mem_keys_of_lookup_none k l hnone
    rw [mapAssign_of_not_mem k p l hnot]
    simp only [List.map_append, List.map_cons, List.map_nil]
    exact List.Nodup.append h (List.nodup_singleton k) (by simpa using hnot)
  · rw [mapAssign_keys_of_lookup k p q l hsome]
    exact h

theorem lookup_of_mem_nodup (k : String) (p : Ptr) (l : List (String × Ptr))
    (h : (l.map Prod.fst).Nodup) (hmem : (k, p) ∈ l) : mapLookup k l = some p := by
  induction l with
  | nil => simp at hmem
  | cons e rest ih =>
    obtain ⟨k1, p1⟩ := e
    simp only [List.map_cons, List.nodup_cons] at h
    rcases List.mem_cons.mp hmem with heq | hrest
    · cases heq
      simp [mapLookup]
    · have hne : ¬ k1 = k := by
        intro hk
        subst hk
        exact h.1 (List.mem_map.mpr ⟨(k1, p), hrest, rfl⟩)
      simp only [mapLookup, hne, if_false]
      exact ih h.2 hrest

theorem step_keys_nodup (w w1 : World) (c : Call) (r : Response)
    (hstep : step w c = some (r, w1)) (h : (keys w).Nodup) : (keys w1).Nodup := by
  cases c with
  | create decoded newID now =>
    rcases handleMessages_result w w1 decoded newID now r hstep with
      ⟨hsame, _⟩ | ⟨req, hd, hc, hr⟩
    · rw [hsame]
      exact h
    · subst hd
      simp only [step, handleMessages_ok w req newID now hc hr, Option.some.injEq,
        Prod.mk.injEq] at hstep
      rw [← hstep.2]
      exact mapAssign_keys_nodup newID _ _ h
  | approve id now =>
    rcases handleApproveMessage_result w w1 id now r hstep with
      ⟨hsame, _⟩ | ⟨p, m, hid, hget, hread, hs⟩
    · rw [hsame]
      exact h
    · simp only [step, handleApproveMessage_ok w id now p m hid hget hread hs,
        Option.some.injEq, Prod.mk.injEq] at hstep
      rw [← hstep.2]
      exact mapAssign_keys_nodup m.ID p _ h
  | reject id now =>
    rcases handleRejectMessage_result w w1 id now r hstep with
      ⟨hsame, _⟩ | ⟨p, m, hid, hget, hread, hs⟩
    · rw [hsame]
      exact h
    · simp only [step, handleRejectMessage_ok w id now p m hid hget hread hs,
        Option.some.injEq, Prod.mk.injEq] at hstep
      rw [← hstep.2]
      exact mapAssign_keys_nodup m.ID p _ h
  | view order =>
    have hsame : w1 = w := by
      simp only [step, handleViewMessages] at hstep
      split at hstep
      · cases hstep
      · simp only [Option.some.injEq, Prod.mk.injEq] at hstep
        exact hstep.2.symm
    rw [hsame]
    exact h

theorem run_keys_nodup (cs : List Call) (w w1 : World) (hrun : run w cs = some w1)
    (h : (keys w).Nodup) : (keys w1).Nodup := by
  induction cs generalizing w with
  | nil =>
    simp only [run, Option.some.injEq] at hrun
    rw [← hrun]
    exact h
  | cons c cs ih =>
    rcases Option.eq_none_or_eq_some (step w c) with hstep | ⟨⟨r, w0⟩, hstep⟩
    · simp [run, hstep] at hrun
    · simp only [run, hstep] at hrun
      exact ih w0 hrun (step_keys_nodup w w0 c r hstep h)

/-- C18: in every state reached from the empty store by a finite sequence of
creation, approve and reject requests (listing requests may be among them, and
every such sequence does reach a state), every entry of the map points to a
message with non-empty `Content`, non-empty `Recipient` and a `Status` that is
`Pending`, `Approved` or `Rejected`, and the key of the entry is the `ID` of
the message; no key occurs twice, so `GetMessage` on that `ID` finds this very
message. -/
theorem reachable_messages_well_formed (cs : List Call) :
    ∃ w, run NewStorage cs = some w ∧ (keys w).Nodup ∧
      ∀ e ∈ w.storage.messages, ∃ m, w.read e.2 = some m ∧
        m.Content ≠ "" ∧ m.Recipient ≠ "" ∧
        (m.Status = Pending ∨ m.Status = Approved ∨ m.Status = Rejected) ∧
        m.ID = e.1 ∧ GetMessage w m.ID = some e.2 := by
  obtain ⟨w, hrun, hw⟩ := run_consistent cs NewStorage newStorage_consistent
  have hnodup : (keys w).Nodup :=
    run_keys_nodup cs NewStorage w hrun (by simp [keys, NewStorage])
  refine ⟨w, hrun, hnodup, ?_⟩
  intro e he
  obtain ⟨m, hread, hid, _, hknown, hc, hr⟩ := hw e he
  refine ⟨m, hread, hc, hr, hknown, hid, ?_⟩
  rw [hid]
  exact lookup_of_mem_nodup e.1 e.2 _ hnodup he

end MakerChecker
